import Mathlib

/-!
Verification development for the configMigrator repository.

The Python sources are shallowly embedded: YAML/JSON configuration trees
become the inductive type `Val` (Python `None`/`bool`/`int`/`str`/`list`/`dict`;
floats do not occur in the portions under study), Python dicts become
insertion-ordered association lists with Python's assign-or-overwrite update,
and code that can raise becomes `Except PyErr`-valued, propagating the partial
in-place mutations the Python code leaves behind when an exception is caught.
Paths are the dot-joined strings the source manipulates.
-/

namespace CfgMig

/-- Python value model: the value universe handled by the migrator
(`None`, `bool`, `int`, `str`, `list`, `dict`). Dicts are insertion-ordered
association lists, as in Python. -/
inductive Val where
  | null : Val
  | bool (b : Bool) : Val
  | int (n : Int) : Val
  | str (s : String) : Val
  | list (xs : List Val) : Val
  | dict (d : List (String × Val)) : Val

/-- A Python dict with string keys, in insertion order. -/
abbrev Dict := List (String × Val)

/-- The Python exceptions raised by the embedded code. -/
inductive PyErr where
  | keyError (msg : String)
  | typeError (msg : String)
  | valueError (msg : String)
deriving DecidableEq

/-- Python `str(e)` of an exception: `KeyError` renders its argument repr-quoted. -/
def PyErr.toStr : PyErr → String
  | .keyError m => "\x27" ++ m ++ "\x27"
  | .typeError m => m
  | .valueError m => m

/-- Python dict read `d[k]` / `k in d`: the value for key `k`, if present. -/
def alistGet {β : Type} : List (String × β) → String → Option β
  | [], _ => none
  | (k, v) :: rest, key => if k = key then some v else alistGet rest key

/-- Python dict write `d[k] = v`: overwrite in place (keeping the key's
position) if present, else append. -/
def alistInsert {β : Type} : List (String × β) → String → β → List (String × β)
  | [], key, v => [(key, v)]
  | (k, w) :: rest, key, v =>
      if k = key then (key, v) :: rest else (k, w) :: alistInsert rest key v

/-- The keys of a dict, in order. -/
def dictKeys {β : Type} (d : List (String × β)) : List String := d.map Prod.fst

/-- Python runtime types (`type(x)`), as compared by `type(a) == type(b)`.
Note Python treats `bool` and `int` as distinct runtime types. -/
inductive PyType where
  | noneT | boolT | intT | strT | listT | dictT
deriving DecidableEq

/-- `type(v)` of an embedded value. -/
def typeTag : Val → PyType
  | .null => .noneT
  | .bool _ => .boolT
  | .int _ => .intT
  | .str _ => .strT
  | .list _ => .listT
  | .dict _ => .dictT

/-- `type(v).__name__`, used in structural-change descriptions. -/
def typeName : Val → String
  | .null => "NoneType"
  | .bool _ => "bool"
  | .int _ => "int"
  | .str _ => "str"
  | .list _ => "list"
  | .dict _ => "dict"

mutual
/-- Python `==` on values: `True == 1`, `False == 0`, dicts compare by key set
and per-key values (faithful for duplicate-free dicts, the only kind Python
produces), lists element-wise. -/
def pyEq : Val → Val → Bool
  | .null, .null => true
  | .bool a, .bool b => a == b
  | .bool a, .int n => (if a then (1 : Int) else 0) == n
  | .int n, .bool a => n == (if a then (1 : Int) else 0)
  | .int a, .int b => a == b
  | .str a, .str b => a == b
  | .list xs, .list ys => pyEqList xs ys
  | .dict a, .dict b => a.length == b.length && pyEqSub a b
  | _, _ => false

/-- Element-wise Python `==` on lists. -/
def pyEqList : List Val → List Val → Bool
  | [], [] => true
  | x :: xs, y :: ys => pyEq x y && pyEqList xs ys
  | _, _ => false

/-- Every entry of the first dict is present and `==`-equal in the second. -/
def pyEqSub : List (String × Val) → List (String × Val) → Bool
  | [], _ => true
  | (k, v) :: rest, d2 =>
      (match alistGet d2 k with
       | some w => pyEq v w
       | none => false) && pyEqSub rest d2
end

/-- Python truthiness of a value (`if v:`). -/
def pyTruthy : Val → Bool
  | .null => false
  | .bool b => b
  | .int n => n != 0
  | .str s => s != ""
  | .list xs => !xs.isEmpty
  | .dict d => !d.isEmpty

mutual
/-- Python `repr(v)` (string escaping inside `repr` of strings is not
modelled; the claims never evaluate it on strings containing quotes). -/
def pyRepr : Val → String
  | .null => "None"
  | .bool true => "True"
  | .bool false => "False"
  | .int n => toString n
  | .str s => "\x27" ++ s ++ "\x27"
  | .list xs => "[" ++ pyReprList xs ++ "]"
  | .dict d => "\x7b" ++ pyReprDict d ++ "\x7d"

/-- Comma-joined reprs of list elements. -/
def pyReprList : List Val → String
  | [] => ""
  | [x] => pyRepr x
  | x :: rest => pyRepr x ++ ", " ++ pyReprList rest

/-- Comma-joined reprs of dict entries. -/
def pyReprDict : List (String × Val) → String
  | [] => ""
  | [(k, v)] => "\x27" ++ k ++ "\x27: " ++ pyRepr v
  | (k, v) :: rest => "\x27" ++ k ++ "\x27: " ++ pyRepr v ++ ", " ++ pyReprDict rest
end

/-- Python `str(v)`: like `repr` except strings print without quotes. -/
def pyStr : Val → String
  | .str s => s
  | v => pyRepr v

/-- Python `s.startswith(p)`. -/
def strStartsWith (s p : String) : Bool := p.data.isPrefixOf s.data

/-- Python `s.endswith(p)`. -/
def strEndsWith (s p : String) : Bool := p.data.isSuffixOf s.data

/-- Python `sub in s` (substring test). -/
def strContains (s sub : String) : Bool :=
  s.data.tails.any (fun t => sub.data.isPrefixOf t)

/-- Python `s.lower()` (ASCII case folding suffices here). -/
def pyLower (s : String) : String := String.mk (s.data.map Char.toLower)

/-- Helper for `pySplitDot`: accumulates the current segment reversed. -/
def pySplitDotAux : List Char → List Char → List String
  | [], acc => [String.mk acc.reverse]
  | c :: rest, acc =>
      if c = '.' then String.mk acc.reverse :: pySplitDotAux rest []
      else pySplitDotAux rest (c :: acc)

/-- Python `s.split('.')`: always nonempty, `"".split('.') == [""]`. -/
def pySplitDot (s : String) : List String := pySplitDotAux s.data []

/-- The path former `f"{prefix}.{key}" if prefix else key` used throughout
the source. -/
def joinPath (pre k : String) : String := if pre = "" then k else pre ++ "." ++ k

/-- Lexicographic order on char lists (Python string `<=`). -/
def lexLe : List Char → List Char → Bool
  | [], _ => true
  | _ :: _, [] => false
  | a :: as, b :: bs => if a < b then true else if a = b then lexLe as bs else false

/-- Python string comparison `a <= b`. -/
def strLe (a b : String) : Bool := lexLe a.data b.data

/-- Insert into a `strLe`-sorted list. -/
def sortedInsert (x : String) : List String → List String
  | [] => [x]
  | y :: rest => if strLe x y then x :: y :: rest else y :: sortedInsert x rest

/-- Python `sorted` on a list of strings (insertion sort; Python compares
strings lexicographically by code point). -/
def pathSort : List String → List String
  | [] => []
  | x :: rest => sortedInsert x (pathSort rest)

/-- Python `str.strip()` whitespace predicate (ASCII whitespace). -/
def isPyWs (c : Char) : Bool :=
  c = ' ' || c = '\t' || c = '\n' || c = '\r' || c = '\x0b' || c = '\x0c'

/-- Python `s.strip()`. -/
def pyStrip (s : String) : String :=
  String.mk (((s.data.dropWhile isPyWs).reverse.dropWhile isPyWs).reverse)

/-- Python `s.strip('"')`. -/
def stripQuotes (s : String) : String :=
  String.mk (((s.data.dropWhile (· = '"')).reverse.dropWhile (· = '"')).reverse)

/-- Python `s.split(sep, 1)[0]` and remainder for `sep = ':'`:
split at the first colon. -/
def splitColon1 : List Char → Option (List Char × List Char)
  | [] => none
  | c :: rest =>
      if c = ':' then some ([], rest)
      else match splitColon1 rest with
        | some (a, b) => some (c :: a, b)
        | none => none

/-! ## diff_analyzer.py (`DiffAnalyzer`) -/

mutual
/-- `DiffAnalyzer._get_all_paths`, main loop: every dot-notation path
reachable by descending mappings from the given prefix. -/
def getAllPathsEntries : List (String × Val) → String → List String
  | [], _ => []
  | (k, v) :: rest, pre =>
      let cur := joinPath pre k
      (cur :: getAllPathsChild v cur) ++ getAllPathsEntries rest pre

/-- `DiffAnalyzer._get_all_paths`, per-value step: recurse into nonempty
dict values only. -/
def getAllPathsChild : Val → String → List String
  | .dict sub, cur => if sub.isEmpty then [] else getAllPathsEntries sub cur
  | _, _ => []
end

/-- `DiffAnalyzer._get_all_paths(data)` (the Python function returns a set;
this list may repeat a path when distinct keys collide in dot notation, which
cannot affect membership). -/
def getAllPaths (d : Dict) : List String := getAllPathsEntries d ""

/-- `DiffAnalyzer.find_deleted_paths`: paths of the old template absent from
the new one, `sorted(list(old_paths - new_paths))`. -/
def findDeletedPaths (oldT newT : Dict) : List String :=
  pathSort (((getAllPaths oldT).filter (fun p => !(getAllPaths newT).contains p)).dedup)

/-- `DiffAnalyzer.find_added_paths`. -/
def findAddedPaths (oldT newT : Dict) : List String :=
  pathSort (((getAllPaths newT).filter (fun p => !(getAllPaths oldT).contains p)).dedup)

/-- Python-`None` view of a returned value: Python callers test results with
`is not None`, which conflates a returned `None` value with absence. -/
def toOpt : Val → Option Val
  | .null => none
  | v => some v

mutual
/-- `DiffAnalyzer._traverse_path_contextual`, the `_search_recursive` body:
returns the Python return value, `none` standing for Python `None`. -/
def ctxSearchVal (target : String) : Val → String → Option Val
  | cur, curPath =>
      if curPath = target then toOpt cur
      else
        match cur with
        | .dict entries =>
            match ctxScan target entries curPath with
            | some r => r
            | none => none
        | _ => none

/-- The `for key, value in current_data.items()` loop of `_search_recursive`:
`some r` means the loop executed `return` with Python value `r`; `none` means
it fell through (the function then returns `None`). -/
def ctxScan (target : String) : List (String × Val) → String → Option (Option Val)
  | [], _ => none
  | (k, v) :: rest, curPath =>
      let np := joinPath curPath k
      if np = target then some (toOpt v)
      else if strStartsWith target (np ++ ".") then
        match v with
        | .dict _ =>
            match ctxSearchVal target v np with
            | some r => some (some r)
            | none => ctxScan target rest curPath
        | _ => ctxScan target rest curPath
      else ctxScan target rest curPath
end

/-- `DiffAnalyzer._traverse_path_contextual(data, target_path)`. -/
def traversePathContextual (data : Dict) (target : String) : Option Val :=
  ctxSearchVal target (.dict data) ("")

/-- The fallback loop of `DiffAnalyzer.get_nested_value`: simple split on `'.'`
and key-by-key descent, raising `KeyError`/`TypeError` as the source does.
`done` tracks the keys already consumed (for the `TypeError` message). -/
def getNestedFallback (path : String) : Val → List String → List String → Except PyErr Val
  | cur, _, [] => .ok cur
  | cur, done, k :: rest =>
      match cur with
      | .dict d =>
          match alistGet d k with
          | some v => getNestedFallback path v (done ++ [k]) rest
          | none =>
              .error (.keyError ("Path \x27" ++ path ++ "\x27 not found: key \x27" ++ k ++ "\x27 missing"))
      | _ =>
          .error (.typeError ("Cannot traverse path \x27" ++ path ++ "\x27: \x27" ++
            String.intercalate (".") done ++ "\x27 is not a dictionary"))

/-- `DiffAnalyzer.get_nested_value(data, path)`: empty path returns the whole
dict; otherwise the contextual traversal, falling back to plain splitting. -/
def getNestedValue (data : Dict) (path : String) : Except PyErr Val :=
  if path = "" then .ok (.dict data)
  else
    match traversePathContextual data path with
    | some v => .ok v
    | none => getNestedFallback path (.dict data) [] (pySplitDot path)

/-- `DiffAnalyzer.path_exists(data, path)`. -/
def pathExists (data : Dict) (path : String) : Bool :=
  match getNestedValue data path with
  | .ok _ => true
  | .error _ => false

/-- The descent loop of `DiffAnalyzer.set_nested_value`: navigate (creating
missing intermediate dicts) and assign the final key. On `TypeError` the
dict already holds the intermediate dicts created before the raise, exactly
as the mutated Python dict does. -/
def setNestedGo (path : String) : Dict → List String → List String → Val → Dict × Option PyErr
  | d, _, [], _ => (d, none)
  | d, _, [k], v => (alistInsert d k v, none)
  | d, done, k :: k2 :: rest, v =>
      match alistGet d k with
      | none =>
          let (sub, err) := setNestedGo path [] (done ++ [k]) (k2 :: rest) v
          (alistInsert d k (.dict sub), err)
      | some (.dict sub) =>
          let (sub2, err) := setNestedGo path sub (done ++ [k]) (k2 :: rest) v
          (alistInsert d k (.dict sub2), err)
      | some _ =>
          (d, some (.typeError ("Cannot set path \x27" ++ path ++ "\x27: \x27" ++
            String.intercalate (".") (done ++ [k]) ++ "\x27 is not a dictionary")))

/-- `DiffAnalyzer.set_nested_value(data, path, value)`: returns the mutated
dict together with the exception raised, if any (`ValueError` on empty path,
`TypeError` on a non-dict intermediate; partial mutation is preserved). -/
def setNestedValue (data : Dict) (path : String) (v : Val) : Dict × Option PyErr :=
  if path = "" then (data, some (.valueError ("Path cannot be empty")))
  else setNestedGo path data [] (pySplitDot path) v

mutual
/-- `DiffAnalyzer._extract_custom_data_recursive`, the loop over the golden
config's entries at one level (`custom_data` is threaded as `acc`). -/
def extractEntries : List (String × Val) → Dict → Dict → String → Dict
  | [], _, acc, _ => acc
  | (k, gv) :: rest, t, acc, pre =>
      extractEntries rest t (extractOne k gv t acc (joinPath pre k)) pre

/-- One iteration of `_extract_custom_data_recursive`: missing key ⇒ capture
the whole subtree; two dicts (the `isinstance` pair check, split here over the
golden value's constructor) ⇒ recurse; otherwise capture on `!=`. -/
def extractOne : String → Val → Dict → Dict → String → Dict
  | k, .dict gsub, t, acc, cur =>
      (match alistGet t k with
       | none => alistInsert acc cur (.dict gsub)
       | some (.dict tsub) => extractEntries gsub tsub acc cur
       | some tv => if pyEq (.dict gsub) tv then acc else alistInsert acc cur (.dict gsub))
  | k, gv, t, acc, cur =>
      (match alistGet t k with
       | none => alistInsert acc cur gv
       | some tv => if pyEq gv tv then acc else alistInsert acc cur gv)
end

/-- `DiffAnalyzer.extract_custom_data(golden_config, template_old)`. -/
def extractCustomData (golden templateOld : Dict) : Dict :=
  extractEntries golden templateOld [] ("")

/-- Python `repr` of a sorted list of strings, as interpolated into
structural-change descriptions (`f"... {sorted(keys)}"`). -/
def reprStrList (l : List String) : String :=
  "[" ++ String.intercalate (", ") (l.map (fun k => "\x27" ++ k ++ "\x27")) ++ "]"

/-- The per-path body of `DiffAnalyzer.find_structural_changes`: compare the
two values at a common path and record a change description if warranted. -/
def structuralChangeAt (oldT newT : Dict) (acc : List (String × String)) (p : String) :
    Except PyErr (List (String × String)) := do
  let ov ← getNestedValue oldT p
  let nv ← getNestedValue newT p
  if typeName ov ≠ typeName nv then
    pure (alistInsert acc p ("Type changed from " ++ typeName ov ++ " to " ++ typeName nv))
  else
    match ov, nv with
    | .dict od, .dict nd =>
        let oldKeys := (dictKeys od).dedup
        let newKeys := (dictKeys nd).dedup
        if oldKeys.all (fun k => newKeys.contains k) && newKeys.all (fun k => oldKeys.contains k) then
          pure acc
        else
          let removed := pathSort (oldKeys.filter (fun k => !newKeys.contains k))
          let added := pathSort (newKeys.filter (fun k => !oldKeys.contains k))
          if removed.isEmpty && added.isEmpty then pure acc
          else
            let changes :=
              (if !removed.isEmpty then ["removed keys: " ++ reprStrList removed] else []) ++
              (if !added.isEmpty then ["added keys: " ++ reprStrList added] else [])
            pure (alistInsert acc p ("Structure changed - " ++ String.intercalate (", ") changes))
    | _, _ => pure acc

/-- The loop of `find_structural_changes` over the common paths. -/
def structuralChangesGo (oldT newT : Dict) : List String → List (String × String) →
    Except PyErr (List (String × String))
  | [], acc => .ok acc
  | p :: rest, acc => do
      let acc2 ← structuralChangeAt oldT newT acc p
      structuralChangesGo oldT newT rest acc2

/-- `DiffAnalyzer.find_structural_changes(old_template, new_template)`.
Python iterates the set `old_paths & new_paths`; iteration order and repeats
cannot change the resulting dict, so the common paths are taken in list
order. `get_nested_value` can raise (propagated, as in the source). -/
def findStructuralChanges (oldT newT : Dict) : Except PyErr (List (String × String)) :=
  structuralChangesGo oldT newT
    ((getAllPaths oldT).filter (fun p => (getAllPaths newT).contains p)) []

/-! ## merge_engine.py: the `ConflictResolution` taxonomy and log entries -/

/-- `ConflictResolution`: the closed taxonomy of conflict actions. -/
inductive ConflictResolution where
  | OVERWRITE | DELETED | ADDED | STRUCTURAL_MISMATCH | MIGRATED
deriving DecidableEq

/-- `ConflictResolution.value`, the string stored in log entries. -/
def ConflictResolution.value : ConflictResolution → String
  | .OVERWRITE => "OVERWRITE"
  | .DELETED => "DELETED"
  | .ADDED => "ADDED"
  | .STRUCTURAL_MISMATCH => "STRUCTURAL_MISMATCH"
  | .MIGRATED => "MIGRATED"

/-- A conflict-log entry as built by `MergeEngine._create_log_entry`
(`action_type` holds the enum's `.value` string, as in the Python dict). -/
structure LogEntry where
  path : String
  action_type : String
  source_value : Val
  target_value : Val
  new_default_value : Val
  reason : String
  manual_review : Bool

/-- `MergeEngine._create_log_entry`. -/
def createLogEntry (path : String) (action : ConflictResolution)
    (sourceValue targetValue newDefaultValue : Val) (reason : String)
    (manualReview : Bool) : LogEntry :=
  ⟨path, action.value, sourceValue, targetValue, newDefaultValue, reason, manualReview⟩

/-! ## network_preservation.py (`NetworkPreservationEngine`)

The engine is embedded with the rules of `_get_default_rules` (the fallback
used when no rules file is present): all of `preserve_these_paths`,
`preserve_these_patterns`, `exclude_these_annotations` and
`update_version_in` are empty and `target_version` is `"25.1.200"`.
Branches that only iterate these empty lists are vacuous; where the loop
body would call `re.search`, the pattern list is empty so the regex
semantics never matters and the predicate is written as `false`. -/

/-- `rules["preserve_these_paths"]` under the default rules. -/
def defaultPreservePaths : List String := []

/-- `rules["preserve_these_patterns"]` under the default rules. -/
def defaultPreservePatterns : List String := []

/-- `rules["exclude_these_annotations"]` under the default rules
(`rules.get` of a missing key). -/
def defaultExcludeAnnotations : List String := []

/-- `rules["update_version_in"]` under the default rules. -/
def defaultUpdateVersionIn : List String := []

/-- `rules["target_version"]` under the default rules. -/
def defaultTargetVersion : String := "25.1.200"

/-- `NetworkPreservationEngine._is_network_critical`: explicit preserve paths,
then `re.search` over the loaded patterns (an empty list here, so the regex
branch is vacuously false). -/
def isNetworkCritical (path : String) : Bool :=
  defaultPreservePaths.contains path || defaultPreservePatterns.any (fun _pat => false)

mutual
/-- `NetworkPreservationEngine._get_all_config_paths`, dict loop: adds every
key path and descends into dict values and dict elements of lists. -/
def netPathsEntries : List (String × Val) → String → List String
  | [], _ => []
  | (k, v) :: rest, pre =>
      let cur := joinPath pre k
      (cur :: netPathsChild v cur) ++ netPathsEntries rest pre

/-- Per-value descent of `_get_all_config_paths`. -/
def netPathsChild : Val → String → List String
  | .dict sub, cur => netPathsEntries sub cur
  | .list items, cur => netPathsList items cur 0
  | _, _ => []

/-- List descent of `_get_all_config_paths`: only dict elements contribute,
under the `parent[i]` path. -/
def netPathsList : List Val → String → Nat → List String
  | [], _, _ => []
  | item :: rest, cur, i =>
      (match item with
       | .dict sub => netPathsEntries sub (cur ++ "[" ++ toString i ++ "]")
       | _ => []) ++ netPathsList rest cur (i + 1)
end

/-- `NetworkPreservationEngine._get_all_config_paths(config)`. -/
def netGetAllConfigPaths (c : Dict) : List String := netPathsEntries c ""

/-- Descent loop of `NetworkPreservationEngine._get_nested_value`. -/
def netGetGo : Val → List String → Option Val
  | cur, [] => toOpt cur
  | .dict d, k :: rest =>
      match alistGet d k with
      | some v => netGetGo v rest
      | none => none
  | _, _ => none

/-- `NetworkPreservationEngine._get_nested_value`: returns `None` (here
`none`) for missing paths and any path containing brackets. -/
def netGet (data : Dict) (path : String) : Option Val :=
  if path = "" then some (.dict data)
  else if strContains path ("[") && strContains path ("]") then none
  else netGetGo (.dict data) (pySplitDot path)

/-- Descent loop of `NetworkPreservationEngine._set_nested_value`: creates
missing intermediates; any non-dict intermediate makes the Python code raise
`TypeError` (via `in`, item assignment or indexing on the non-dict — the
exact message depends on the runtime type and is not further observed). -/
def netSetGo : Dict → List String → Val → Except PyErr Dict
  | d, [], _ => .ok d
  | d, [k], v => .ok (alistInsert d k v)
  | d, k :: k2 :: rest, v =>
      match alistGet d k with
      | none => do
          let sub ← netSetGo [] (k2 :: rest) v
          .ok (alistInsert d k (.dict sub))
      | some (.dict sub) => do
          let sub2 ← netSetGo sub (k2 :: rest) v
          .ok (alistInsert d k (.dict sub2))
      | some _ => .error (.typeError ("nested intermediate is not a dictionary"))

/-- `NetworkPreservationEngine._set_nested_value`: no-op on the empty path and
on bracketed paths. -/
def netSet (data : Dict) (path : String) (v : Val) : Except PyErr Dict :=
  if path = "" then .ok data
  else if strContains path ("[") && strContains path ("]") then .ok data
  else netSetGo data (pySplitDot path) v

/-- `NetworkPreservationEngine.identify_network_critical_paths`. -/
def identifyNetworkCriticalPaths (c : Dict) : List String :=
  (netGetAllConfigPaths c).filter isNetworkCritical

/-- `NetworkPreservationEngine._should_update_version`: matches the path
against `update_version_in` patterns — empty under the default rules, so the
`_path_matches_pattern` regex is never evaluated. -/
def shouldUpdateVersion (_path : String) (_v : Val) : Bool :=
  defaultUpdateVersionIn.any (fun _pat => false)

/-- Python `s.replace(pat, rep)` on char lists (left-to-right,
non-overlapping). -/
def strReplaceL (pat rep : List Char) : List Char → List Char
  | [] => []
  | c :: rest =>
      if !pat.isEmpty && pat.isPrefixOf (c :: rest) then
        rep ++ strReplaceL pat rep ((c :: rest).drop pat.length)
      else c :: strReplaceL pat rep rest
termination_by l => l.length
decreasing_by
  · rename_i hp
    simp only [Bool.and_eq_true, Bool.not_eq_true] at hp
    have hlen : pat.length ≠ 0 := by
      simpa [List.length_eq_zero] using (by
        intro h
        rw [h] at hp
        simp at hp : pat ≠ [])
    simp [List.length_drop]
    omega
  · simp

/-- Python `s.replace(pat, rep)`. -/
def strReplace (s pat rep : String) : String :=
  String.mk (strReplaceL pat.data rep.data s.data)

/-- `NetworkPreservationEngine._update_version_fields` (dead under the default
rules, since `_should_update_version` is constantly false; embedded for
completeness). -/
def updateVersionFields (v : Val) : Val :=
  match v with
  | .dict d => .dict (d.map (fun kv =>
      if strContains (pyLower kv.1) ("version") &&
         (match kv.2 with | .str s => strContains s ("25.1.102") | _ => false) then
        (kv.1, match kv.2 with
               | .str s => Val.str (strReplace s ("25.1.102") defaultTargetVersion)
               | w => w)
      else kv))
  | .str s =>
      if strContains s ("25.1.102") then .str (strReplace s ("25.1.102") defaultTargetVersion)
      else .str s
  | w => w

/-- The `for path in network_paths` preservation loop of
`preserve_network_config`. -/
def preserveNetworkLoop (golden : Dict) : List String → Dict → Except PyErr Dict
  | [], acc => .ok acc
  | p :: rest, acc =>
      match netGet golden p with
      | some oldv => do
          let acc2 ←
            if shouldUpdateVersion p oldv then netSet acc p (updateVersionFields oldv)
            else netSet acc p oldv
          preserveNetworkLoop golden rest acc2
      | none => preserveNetworkLoop golden rest acc

/-- The annotation-path test used by `_merge_network_annotations` and
`filter_excluded_annotations_globally`:
`any(t in path.lower() for t in ["annotations", "egressannotations", "podannotations"])`. -/
def containsAnnotationSub (p : String) : Bool :=
  ["annotations", "egressannotations", "podannotations"].any
    (fun a => strContains (pyLower p) a)

/-- `NetworkPreservationEngine._should_use_dict_format_for_path`. -/
def shouldUseDictFormatForPath (path : String) : Bool :=
  let dictPatterns := ["service.annotations", "externalService.annotations",
    "connectivityService.annotations", "externalconnectivityService.annotations",
    "internalService.annotations"]
  let arrayPatterns := ["mgm.annotations", "ndb.annotations", "api.annotations",
    "api.ndbapp.annotations", "test.annotations"]
  if dictPatterns.any (fun pat => strContains path pat) then true
  else if arrayPatterns.any (fun pat => strContains path pat) then false
  else if strContains (pyLower path) ("service") && strContains path ("annotations") then true
  else false

/-- `NetworkPreservationEngine._is_annotation_excluded` (always false under
the default rules' empty exclusion list). -/
def isAnnotationExcluded (k : String) : Bool := defaultExcludeAnnotations.contains k

/-- `NetworkPreservationEngine._filter_excluded_annotations`. Note empty dict
items inside array-form annotations are dropped even with no exclusions
(`if filtered_item:`). -/
def filterExcludedAnnotations : Option Val → Option Val
  | none => none
  | some (.dict d) => some (.dict (d.filter (fun kv => !isAnnotationExcluded kv.1)))
  | some (.list items) => some (.list (items.filterMap (fun item =>
      match item with
      | .dict d =>
          let fd := d.filter (fun kv => !isAnnotationExcluded kv.1)
          if fd.isEmpty then none else some (.dict fd)
      | .str s =>
          if strContains s (":") then
            match splitColon1 s.data with
            | some (k, _) =>
                if isAnnotationExcluded (pyStrip (String.mk k)) then none else some (.str s)
            | none => some (.str s)
          else some (.str s)
      | other => some other)))
  | some v => some v

/-- `NetworkPreservationEngine._convert_array_annotations_to_dict`: array-form
annotations to a dict of strings (`str(value)` stringification). -/
def convertArrayAnnotationsToDict (items : List Val) : Dict :=
  items.foldl (fun acc item =>
    match item with
    | .dict d => d.foldl (fun acc2 kv => alistInsert acc2 kv.1 (.str (pyStr kv.2))) acc
    | .str s =>
        if strContains s (":") then
          match splitColon1 s.data with
          | some (k, v) =>
              alistInsert acc (pyStrip (String.mk k)) (.str (stripQuotes (pyStrip (String.mk v))))
          | none => acc
        else alistInsert acc (pyStrip s) (.str "")
    | _ => acc) []

/-- `NetworkPreservationEngine._merge_annotation_sources(old, new, path)`:
`none` plays Python `None`. -/
def mergeAnnotationSources (oldAnn newAnn : Option Val) (path : String) : Option Val :=
  match oldAnn, newAnn with
  | none, some nv => filterExcludedAnnotations (some nv)
  | some ov, none => filterExcludedAnnotations (some ov)
  | none, none => none
  | some ov, some nv =>
      let oldDict : Dict :=
        match ov with
        | .list l => convertArrayAnnotationsToDict l
        | .dict d => d
        | _ => []
      let newDict : Dict :=
        match nv with
        | .list l => convertArrayAnnotationsToDict l
        | .dict d => d
        | _ => []
      let disabled : Bool :=
        match ov with
        | .dict [] => true
        | .list [] => true
        | _ => false
      let base : Dict :=
        if !disabled then
          newDict.foldl (fun acc kv =>
            if !isAnnotationExcluded kv.1 then alistInsert acc kv.1 kv.2 else acc) []
        else []
      let merged : Dict :=
        oldDict.foldl (fun acc kv =>
          if !isAnnotationExcluded kv.1 then alistInsert acc kv.1 kv.2 else acc) base
      let useArray0 : Bool := match ov with | .list _ => true | _ => false
      let useArray : Bool :=
        if merged.isEmpty && shouldUseDictFormatForPath path then false else useArray0
      if useArray then
        if !merged.isEmpty then some (.list (merged.map (fun kv => Val.dict [kv])))
        else if disabled then some ov
        else
          let hadContent : Bool :=
            (match ov with | .list (_ :: _) => true | _ => false) ||
            (match nv with | .list (_ :: _) => true | _ => false)
          if hadContent then some (.list []) else some (.dict [])
      else
        if !merged.isEmpty then some (.dict merged)
        else if disabled then some ov
        else some (.dict [])

/-- The `for path in annotation_paths` loop of
`NetworkPreservationEngine._merge_network_annotations` (the
`current_annotations` read of the source is unused). -/
def mergeNetworkAnnotationsGo (golden tn : Dict) : List String → Dict → Except PyErr Dict
  | [], result => .ok result
  | p :: rest, result =>
      let oldAnn := netGet golden p
      let newAnn := netGet tn p
      if oldAnn.isSome || newAnn.isSome then
        match mergeAnnotationSources oldAnn newAnn p with
        | some merged => do
            let result2 ← netSet result p merged
            mergeNetworkAnnotationsGo golden tn rest result2
        | none => mergeNetworkAnnotationsGo golden tn rest result
      else mergeNetworkAnnotationsGo golden tn rest result

/-- `NetworkPreservationEngine._merge_network_annotations`: the annotation
paths of the result; the second Python loop that extends this list from
`rules["preserve_these_paths"]` is vacuous under the default rules. -/
def mergeNetworkAnnotations (golden tn : Dict) (result : Dict) : Except PyErr Dict :=
  mergeNetworkAnnotationsGo golden tn
    ((netGetAllConfigPaths result).filter containsAnnotationSub) result

/-- `NetworkPreservationEngine._fix_array_annotations`: its loop runs over
`critical_annotation_paths`, built exclusively from
`rules["preserve_these_paths"]` — empty under the default rules — so the
function leaves `result` unchanged. -/
def fixArrayAnnotations (_golden _tn : Dict) (result : Dict) : Dict := result

/-- `NetworkPreservationEngine.preserve_network_config(golden_old,
template_new, merged_result)` (the initial `merged_result.copy()` is the
identity on pure values). -/
def preserveNetworkConfig (goldenOld templateNew merged : Dict) : Except PyErr Dict := do
  let enhanced ← preserveNetworkLoop goldenOld (identifyNetworkCriticalPaths goldenOld) merged
  let enhanced2 ← mergeNetworkAnnotations goldenOld templateNew enhanced
  .ok (fixArrayAnnotations goldenOld templateNew enhanced2)

/-- Append a path to a category list (insertion-ordered), for the summary. -/
def categoryAppend (acc : List (String × List String)) (cat p : String) :
    List (String × List String) :=
  match alistGet acc cat with
  | some ps => alistInsert acc cat (ps ++ [p])
  | none => acc ++ [(cat, [p])]

/-- `NetworkPreservationEngine.get_network_critical_summary`: groups the
network-critical paths by the first matching pattern's category (all loaded
patterns carry category `"network_critical"`); vacuous under the default
rules. -/
def getNetworkCriticalSummary (c : Dict) : List (String × List String) :=
  (identifyNetworkCriticalPaths c).foldl (fun acc p =>
    match defaultPreservePatterns.find? (fun _pat => false) with
    | some _ => categoryAppend acc ("network_critical") p
    | none => acc) []

/-- `MergeEngine._add_network_preservation_logs`. -/
def addNetworkPreservationLogs (log : List LogEntry)
    (summary : List (String × List String)) : List LogEntry :=
  let total := (summary.map (fun kv => kv.2.length)).sum
  if total > 0 then
    log ++ [createLogEntry ("__NETWORK_PRESERVATION_SUMMARY__") .OVERWRITE
      (.str ("Preserved " ++ toString total ++ " network-critical configurations"))
      (.str ("Network categories: " ++ String.intercalate (", ") (summary.map Prod.fst)))
      .null
      ("Automatically preserved network-critical labels and annotations to maintain connectivity")
      false]
  else log

/-! ## merge_engine.py (`MergeEngine`) -/

/-- `MergeEngine._resolve_single_conflict(path, custom_value, final_config,
template_new, template_old, deleted_paths, structural_changes)`. Returns the
(possibly mutated) final config and the log entry, or the uncaught exception.
The structural-mismatch `try` block is modelled by `tryStep`: `.inl` is an
early `return`, `.inr` is falling through to the code after the `try`
(carrying any partial mutation the caught `set_nested_value` left behind);
the unused `old_default` read of the source is not replayed. -/
def resolveSingleConflict (path : String) (cv : Val) (finalConfig : Dict)
    (templateNew _templateOld : Dict) (_deletedPaths : List String)
    (structuralChanges : List (String × String)) : Except PyErr (Dict × Option LogEntry) :=
  match alistGet structuralChanges path with
  | some desc =>
      let tryStep : Except PyErr (Sum (Dict × Option LogEntry) Dict) :=
        if pathExists templateNew path then
          match getNestedValue templateNew path with
          | .error _ => .ok (.inr finalConfig)
          | .ok newDefault =>
              if typeTag cv = typeTag newDefault then
                match setNestedValue finalConfig path cv with
                | (final2, none) =>
                    .ok (.inl (final2, some (createLogEntry path .OVERWRITE cv cv newDefault
                      ("Custom value applied despite structural change: " ++ desc) true)))
                | (_, some (.valueError m)) => .error (.valueError m)
                | (final2, some _) => .ok (.inr final2)
              else
                .ok (.inl (finalConfig, some (createLogEntry path .STRUCTURAL_MISMATCH cv
                  newDefault newDefault
                  ("Cannot apply custom value due to type change: " ++ desc) true)))
        else .ok (.inr finalConfig)
      match tryStep with
      | .error e => .error e
      | .ok (.inl r) => .ok r
      | .ok (.inr final2) =>
          let newDefault :=
            if pathExists templateNew path then
              match getNestedValue templateNew path with
              | .ok v => v
              | .error _ => .null
            else .null
          .ok (final2, some (createLogEntry path .STRUCTURAL_MISMATCH cv newDefault newDefault
            ("Structural mismatch prevents applying custom value: " ++ desc) true))
  | none =>
      if pathExists templateNew path then
        match getNestedValue templateNew path with
        | .error e =>
            .ok (finalConfig, some (createLogEntry path .STRUCTURAL_MISMATCH cv .null .null
              ("Failed to apply custom value: " ++ e.toStr) true))
        | .ok newDefault =>
            match setNestedValue finalConfig path cv with
            | (final2, none) =>
                if pyEq cv newDefault then .ok (final2, none)
                else .ok (final2, some (createLogEntry path .OVERWRITE cv cv newDefault
                  ("Custom value preserved from old configuration") false))
            | (_, some (.valueError m)) => .error (.valueError m)
            | (final2, some e) =>
                .ok (final2, some (createLogEntry path .STRUCTURAL_MISMATCH cv .null .null
                  ("Failed to apply custom value: " ++ e.toStr) true))
      else
        .ok (finalConfig, some (createLogEntry path .DELETED cv .null .null
          ("Custom path \x27" ++ path ++ "\x27 does not exist in new template") true))

/-- The deletion entry of `MergeEngine.resolve_conflicts` for paths removed in
the new template. -/
def deletedLogEntry (path : String) (cv : Val) : LogEntry :=
  createLogEntry path .DELETED cv .null .null
    ("Key \x27" ++ path ++ "\x27 was removed in new template version") true

/-- The `for path, custom_value in custom_data.items()` loop of
`MergeEngine.resolve_conflicts`. -/
def resolveGo (templateNew templateOld : Dict) (deleted : List String)
    (structural : List (String × String)) :
    List (String × Val) → Dict → List LogEntry → Except PyErr (Dict × List LogEntry)
  | [], final, log => .ok (final, log)
  | (path, cv) :: rest, final, log =>
      if path ∈ deleted then
        resolveGo templateNew templateOld deleted structural rest final
          (log ++ [deletedLogEntry path cv])
      else
        match resolveSingleConflict path cv final templateNew templateOld deleted structural with
        | .error e => .error e
        | .ok (final2, entry) =>
            resolveGo templateNew templateOld deleted structural rest final2 (log ++ entry.toList)

/-- `MergeEngine.resolve_conflicts(custom_data, template_new, template_old)`:
start from a deep copy of the new template and fold the custom entries. -/
def resolveConflicts (customData : Dict) (templateNew templateOld : Dict) :
    Except PyErr (Dict × List LogEntry) :=
  match findStructuralChanges templateOld templateNew with
  | .error e => .error e
  | .ok structural =>
      resolveGo templateNew templateOld (findDeletedPaths templateOld templateNew) structural
        customData templateNew []

/-- `MergeEngine.apply_migrations(custom_data, migration_map)`. -/
def applyMigrations (customData : Dict) (migrationMap : List (String × String)) : Dict :=
  customData.foldl (fun acc entry =>
    match alistGet migrationMap entry.1 with
    | some newPath => alistInsert acc newPath entry.2
    | none => alistInsert acc entry.1 entry.2) []

/-- The `while current_path in migration_map` chain walk of
`MergeEngine.validate_migration_map`: returns the circular-migration error
message if the chain revisits a member, stops silently on an already-visited
key or a chain end. -/
def walkChain (m : List (String × String)) (visited : List String) :
    List String → String → Option String
  | chain, current =>
      match h : alistGet m current with
      | none => none
      | some next =>
          if hc : next ∈ chain then
            some ("Circular migration detected: " ++
              String.intercalate (" -> ") chain ++ " -> " ++ next)
          else if next ∈ visited then none
          else walkChain m visited (chain ++ [next]) next
termination_by chain _ => ((m.map Prod.snd).filter (fun y => !decide (y ∈ chain))).length
decreasing_by
  have hmem : next ∈ m.map Prod.snd := by
    clear hc
    induction m with
    | nil => simp [alistGet] at h
    | cons kv rest ih =>
        obtain ⟨k, v⟩ := kv
        rw [alistGet] at h
        by_cases hk : k = current
        · simp [hk] at h
          simp [h]
        · simp [hk] at h
          simp [ih h]
  have key : ∀ (l : List String), next ∈ l →
      (l.countP (fun y => !decide (y ∈ chain ++ [next])) <
        l.countP (fun y => !decide (y ∈ chain))) := by
    intro l hl
    induction l with
    | nil => cases hl
    | cons a l ih =>
        have mono : l.countP (fun y => !decide (y ∈ chain ++ [next])) ≤
            l.countP (fun y => !decide (y ∈ chain)) := by
          apply List.countP_mono_left
          intro x _ hx
          simp only [Bool.not_eq_true', decide_eq_false_iff_not, List.mem_append,
            List.mem_singleton] at hx ⊢
          exact fun hxc => hx (Or.inl hxc)
        rw [List.countP_cons, List.countP_cons]
        by_cases hax : a = next
        · subst hax
          have h1 : (!decide (a ∈ chain ++ [a])) = false := by simp
          have h2 : (!decide (a ∈ chain)) = true := by simp [hc]
          rw [h1, h2]
          simp only [Bool.false_eq_true, if_false, if_true]
          omega
        · have hl2 : next ∈ l := by
            rcases List.mem_cons.mp hl with hEq | hIn
            · exact absurd hEq.symm hax
            · exact hIn
          have ihl := ih hl2
          by_cases hac : a ∈ chain
          · have h1 : (!decide (a ∈ chain ++ [next])) = false := by simp [hac]
            have h2 : (!decide (a ∈ chain)) = false := by simp [hac]
            rw [h1, h2]
            simpa using ihl
          · have h1 : (!decide (a ∈ chain ++ [next])) = true := by simp [hac, hax]
            have h2 : (!decide (a ∈ chain)) = true := by simp [hac]
            rw [h1, h2]
            simp only [if_true]
            omega

  have := key (m.map Prod.snd) hmem
  simpa [List.countP_eq_length_filter] using this

/-- The `for old_path in migration_map` loop of `validate_migration_map`:
walk each chain, collect circular-migration errors, extend `visited`. -/
def cycleScan (m : List (String × String)) :
    List String → List String → List String → List String
  | [], _, errs => errs
  | k :: restKeys, visited, errs =>
      let errs2 :=
        match walkChain m visited [k] k with
        | some msg => errs ++ [msg]
        | none => errs
      cycleScan m restKeys (visited ++ [k]) errs2

/-- The path-format loop of `validate_migration_map` over
`list(map.keys()) + list(map.values())`: an empty path, a leading or
trailing dot, or a doubled dot each append one error. -/
def pathFormatErrsGo : List String → List String → List String
  | [], acc => acc
  | p :: rest, acc =>
      if p = "" then pathFormatErrsGo rest (acc ++ ["Invalid path format: " ++ p])
      else if strStartsWith p (".") || strEndsWith p (".") || strContains p ("..") then
        pathFormatErrsGo rest (acc ++ ["Invalid path format: \x27" ++ p ++
          "\x27 (cannot start/end with \x27.\x27 or contain \x27..\x27)"])
      else pathFormatErrsGo rest acc

/-- The path-format errors of `validate_migration_map`. -/
def pathFormatErrs (allPaths : List String) : List String :=
  pathFormatErrsGo allPaths []

/-- `MergeEngine.validate_migration_map(migration_map)`: circular-reference
errors followed by path-format errors. -/
def validateMigrationMap (m : List (String × String)) : List String :=
  cycleScan m (m.map Prod.fst) [] [] ++ pathFormatErrs (m.map Prod.fst ++ m.map Prod.snd)

/-- `MergeEngine.merge_configurations(golden_config, template_old,
template_new, migration_map)`: extraction, optional migration (`if
migration_map:` is false for both `None` and the empty dict), conflict
resolution, network preservation, and the network summary log entry. -/
def mergeConfigurations (goldenConfig templateOld templateNew : Dict)
    (migrationMap : Option (List (String × String))) : Except PyErr (Dict × List LogEntry) :=
  let custom0 := extractCustomData goldenConfig templateOld
  let custom :=
    match migrationMap with
    | some m => if m.isEmpty then custom0 else applyMigrations custom0 m
    | none => custom0
  match resolveConflicts custom templateNew templateOld with
  | .error e => .error e
  | .ok (final, log) =>
      match preserveNetworkConfig goldenConfig templateNew final with
      | .error e => .error e
      | .ok final2 =>
          .ok (final2, addNetworkPreservationLogs log (getNetworkCriticalSummary final2))

/-! ## dynamic_discovery (`DynamicStructuralDetector`, `MigrationSuggester`)

Similarity scores are Python floats in `[0, 1]`; they are modelled as
rationals (the thresholds 0.8 and 0.5 and the sample scores used below are
exactly representable as floats, so the comparisons agree). -/

/-- `MigrationCandidate` (dataclass). -/
structure MigrationCandidate where
  new_path : String
  similarity_type : String
  similarity_score : ℚ
  evidence : String
  requires_human_review : Bool
  field_mapping : Option (List (String × String))
  metadata_additions : Option Dict

/-- `DiscoveredMigration` (dataclass). -/
structure DiscoveredMigration where
  old_path : String
  custom_value : Val
  candidates : List MigrationCandidate
  best_candidate : Option MigrationCandidate
  confidence : ℚ
  migration_type : String

/-- `DynamicStructuralDetector.auto_apply_threshold` (0.8). -/
def autoApplyThreshold : ℚ := mkRat 4 5

/-- `DynamicStructuralDetector.suggest_threshold` (0.5). -/
def suggestThreshold : ℚ := mkRat 1 2

/-- `DynamicStructuralDetector.get_auto_apply_migrations`: confidence at least
the auto-apply threshold, a best candidate present (dataclass instances are
truthy, `None` is falsy), and not flagged for human review. -/
def getAutoApplyMigrations (ms : List DiscoveredMigration) : List DiscoveredMigration :=
  ms.filter (fun m =>
    decide (autoApplyThreshold ≤ m.confidence) &&
    (match m.best_candidate with
     | some b => !b.requires_human_review
     | none => false))

/-- The `for migration in migrations` loop of
`MigrationSuggester.create_migration_map`: skip migrations without a best
candidate, skip confidence below the hard-coded 0.5 unless low-confidence
entries were requested, and write `old_path -> best.new_path` into the
map. -/
def createMigrationMapGo : List DiscoveredMigration → Bool → List (String × String) →
    List (String × String)
  | [], _, acc => acc
  | m :: rest, ilc, acc =>
      match m.best_candidate with
      | none => createMigrationMapGo rest ilc acc
      | some best =>
          if decide (m.confidence < mkRat 1 2) && !ilc then createMigrationMapGo rest ilc acc
          else createMigrationMapGo rest ilc (alistInsert acc m.old_path best.new_path)

/-- `MigrationSuggester.create_migration_map(migrations,
include_low_confidence)`. -/
def createMigrationMap (ms : List DiscoveredMigration) (includeLowConfidence : Bool) :
    List (String × String) :=
  createMigrationMapGo ms includeLowConfidence []

/-! ## cvpilot/core/transformer.py (`PathTransformationDetector`) -/

/-- `TransformationRecord` of the transformer. -/
structure TransformationRecord where
  old_path : String
  new_path : String
  value : Val
  recommendation : String
  reason : String
  confidence : String

/-- The detector's two indices: `path_value_map` and `value_paths_map`
(a `defaultdict(list)` keyed by `f"{context}:{str(value)}"`). -/
structure PVState where
  pvm : List (String × Val)
  vpm : List (String × List String)

/-- `PathTransformationDetector._make_value_key(value, context)`. -/
def makeValueKey (v : Val) (context : String) : String := context ++ ":" ++ pyStr v

/-- Record a leaf in both indices: tracked in `value_paths_map` only when the
value is not `None`, not `""` and not `{}` (Python `!=` comparisons). -/
def recordLeaf (st : PVState) (path : String) (v : Val) (context : String) : PVState :=
  let pvm2 := alistInsert st.pvm path v
  let tracked :=
    (match v with | .null => false | _ => true) &&
    !pyEq v (.str "") && !pyEq v (.dict [])
  let vpm2 :=
    if tracked then
      match alistGet st.vpm (makeValueKey v context) with
      | some ps => alistInsert st.vpm (makeValueKey v context) (ps ++ [path])
      | none => st.vpm ++ [(makeValueKey v context, [path])]
    else st.vpm
  ⟨pvm2, vpm2⟩

mutual
/-- `PathTransformationDetector._build_path_value_map(data, current_path,
parent_key)`: dispatch on dict/list (a scalar at the top contributes
nothing). -/
def bpvVal : Val → String → String → PVState → PVState
  | .dict entries, curPath, _parentKey, st => bpvEntries entries curPath st
  | .list items, curPath, parentKey, st => bpvItems items curPath parentKey 0 st
  | _, _, _, st => st

/-- Dict loop of `_build_path_value_map`. -/
def bpvEntries : List (String × Val) → String → PVState → PVState
  | [], _, st => st
  | (k, v) :: rest, curPath, st =>
      let np := joinPath curPath k
      let st2 :=
        match v with
        | .dict _ => bpvVal v np k st
        | .list _ => bpvVal v np k st
        | _ => recordLeaf st np v k
      bpvEntries rest curPath st2

/-- List loop of `_build_path_value_map` (paths `parent[i]`, context the
parent key). -/
def bpvItems : List Val → String → String → Nat → PVState → PVState
  | [], _, _, _, st => st
  | item :: rest, curPath, parentKey, idx, st =>
      let np := curPath ++ "[" ++ toString idx ++ "]"
      let st2 :=
        match item with
        | .dict _ => bpvVal item np parentKey st
        | .list _ => bpvVal item np parentKey st
        | _ => recordLeaf st np item parentKey
      bpvItems rest curPath parentKey (idx + 1) st2
end

/-- `PathTransformationDetector._find_duplicate_value_groups`. -/
def findDuplicateValueGroups (vpm : List (String × List String)) :
    List (String × List String) :=
  vpm.filter (fun kv => decide (2 ≤ kv.2.length))

/-- Digits to the number `int(...)` parses. -/
def digitsToNat (ds : List Char) : Nat :=
  ds.foldl (fun acc c => acc * 10 + (c.toNat - 48)) 0

/-- The regex `([^\[]+)\[(\d+)\]` of `_parse_path_segments`, applied with
`re.match` (anchored at the start, trailing characters ignored): key before
the first bracket, digits, closing bracket. -/
def parseArrPart (part : String) : Option (String × Nat) :=
  let before := part.data.takeWhile (fun c => c ≠ '[')
  let rest := part.data.dropWhile (fun c => c ≠ '[')
  if before.isEmpty then none
  else
    match rest with
    | '[' :: r2 =>
        let digits := r2.takeWhile Char.isDigit
        let r3 := r2.dropWhile Char.isDigit
        if digits.isEmpty then none
        else
          match r3 with
          | ']' :: _ => some (String.mk before, digitsToNat digits)
          | _ => none
    | _ => none

/-- `PathTransformationDetector._parse_path_segments(path)`: keys (`inl`) and
array indices (`inr`). -/
def parsePathSegments (path : String) : List (String ⊕ Nat) :=
  (pySplitDot path).foldr (fun part acc =>
    (match parseArrPart part with
     | some ki => [.inl ki.1, .inr ki.2]
     | none => [.inl part]) ++ acc) []

/-- Descent loop of `PathTransformationDetector._path_exists_in_config`. -/
def pathSegExistsGo : Val → List (String ⊕ Nat) → Bool
  | _, [] => true
  | cur, .inl k :: rest =>
      match cur with
      | .dict d =>
          match alistGet d k with
          | some v => pathSegExistsGo v rest
          | none => false
      | _ => false
  | cur, .inr i :: rest =>
      match cur with
      | .list xs =>
          match xs.get? i with
          | some v => pathSegExistsGo v rest
          | none => false
      | _ => false

/-- `PathTransformationDetector._path_exists_in_config(path, config)`. -/
def pathExistsInConfig (path : String) (config : Dict) : Bool :=
  pathSegExistsGo (.dict config) (parsePathSegments path)

/-- Descent loop of `PathTransformationDetector._get_value_at_path`
(`current[segment]`; a string indexed by an `int` yields a one-character
string in Python; all other mismatches raise and are caught as `None`). -/
def getValueAtPathGo : Val → List (String ⊕ Nat) → Option Val
  | cur, [] => some cur
  | cur, .inl k :: rest =>
      match cur with
      | .dict d =>
          match alistGet d k with
          | some v => getValueAtPathGo v rest
          | none => none
      | _ => none
  | cur, .inr i :: rest =>
      match cur with
      | .list xs =>
          match xs.get? i with
          | some v => getValueAtPathGo v rest
          | none => none
      | .str s =>
          match s.data.get? i with
          | some c => getValueAtPathGo (.str (String.mk [c])) rest
          | none => none
      | _ => none

/-- `PathTransformationDetector._get_value_at_path(config, path)`: callers
only observe the result through `is not None`/`isinstance`, so a found `None`
value coincides with absence, as in Python. -/
def getValueAtPath (config : Dict) (path : String) : Option Val :=
  match getValueAtPathGo (.dict config) (parsePathSegments path) with
  | some v => toOpt v
  | none => none

/-- `PathTransformationDetector._get_parent_path(path)`. -/
def getParentPath (path : String) : Option String :=
  if !strContains path (".") && !strContains path ("[") then none
  else if strContains path ("[") then
    let base := String.mk (path.data.takeWhile (fun c => c ≠ '['))
    if strContains base (".") then
      some (String.intercalate (".") (pySplitDot base).dropLast)
    else none
  else
    let parts := pySplitDot path
    if parts.length > 1 then some (String.intercalate (".") parts.dropLast)
    else none

mutual
/-- `PathTransformationDetector._count_leaf_fields(obj)` (non-dicts count
zero at the top). -/
def countLeafFields : Val → Nat
  | .dict d => clfEntries d
  | _ => 0

/-- Per-value count of `_count_leaf_fields`: dict values recurse, list values
count item-wise, scalars count one. -/
def clfChild : Val → Nat
  | .dict d => clfEntries d
  | .list items => clfItems items
  | _ => 1

/-- Dict traversal of `_count_leaf_fields`. -/
def clfEntries : List (String × Val) → Nat
  | [] => 0
  | (_, v) :: rest => clfChild v + clfEntries rest

/-- Per-item count inside list values: dict items recurse, others count
one. -/
def clfItem : Val → Nat
  | .dict d => clfEntries d
  | _ => 1

/-- List traversal of `_count_leaf_fields`. -/
def clfItems : List Val → Nat
  | [] => 0
  | item :: rest => clfItem item + clfItems rest
end

/-- `PathTransformationDetector._is_child_of(child_path, parent_path)`. -/
def isChildOf (child parent : String) : Bool :=
  !(child == parent) &&
  (strStartsWith child (parent ++ ".") || strStartsWith child (parent ++ "["))

/-- `PathTransformationDetector._is_child_of_any(path, parent_paths)`. -/
def isChildOfAny (p : String) (parents : List String) : Bool :=
  parents.any (fun pp => isChildOf p pp)

/-- `PathTransformationDetector._get_representative_new_path`:
`f"{parent}.*"` when the first record's new path has a truthy parent. -/
def getRepresentativeNewPath (ts : List TransformationRecord) : String :=
  match ts with
  | [] => "[unknown]"
  | t :: _ =>
      match getParentPath t.new_path with
      | some p => if p ≠ "" then p ++ ".*" else t.new_path
      | none => t.new_path

/-- `PathTransformationDetector._analyze_duplicate_paths(paths,
path_value_map, reference_config)`: partition the group by existence in the
reference and emit Move / KeepBoth records. `none` models the `KeyError` /
`IndexError` on an empty group or a path missing from the map (unreachable
from `detect_duplicate_values`). -/
def analyzeDuplicatePaths (paths : List String) (pvm : List (String × Val))
    (ref : Dict) : Option (List TransformationRecord) :=
  match paths with
  | [] => none
  | p0 :: _ =>
      match alistGet pvm p0 with
      | none => none
      | some value =>
          let inRef := paths.filter (fun p => pathExistsInConfig p ref)
          let notInRef := paths.filter (fun p => !pathExistsInConfig p ref)
          if inRef.length = 1 ∧ 1 ≤ notInRef.length then
            some (notInRef.map (fun old => TransformationRecord.mk old (inRef.headD ("")) value
              ("move") ("new_path exists in ENGNEW reference, old_path does not") ("high")))
          else if 2 ≤ inRef.length then
            let sorted := pathSort paths
            some ((sorted.zip sorted.tail).map (fun pq => TransformationRecord.mk pq.1 pq.2 value
              ("keep_both") ("both paths exist in ENGNEW reference") ("medium")))
          else if 2 ≤ notInRef.length then
            let sorted := pathSort paths
            some ((sorted.zip sorted.tail).map (fun pq => TransformationRecord.mk pq.1 pq.2 value
              ("keep_both") ("neither path exists in ENGNEW reference - manual review needed")
              ("low")))
          else some []

/-- `PathTransformationDetector._detect_parent_object_transformations`: group
Move records by truthy parent path; a parent at least half of whose leaf
fields moved (`transformed/total >= 0.5`, exact here) and which is absent
from the reference yields one parent-level Move record. -/
def detectParentObjectTransformations (fieldTs : List TransformationRecord)
    (merged ref : Dict) : List TransformationRecord :=
  let parentGroups := fieldTs.foldl (fun acc t =>
    if t.recommendation == "move" then
      match getParentPath t.old_path with
      | some pp =>
          if pp ≠ "" then
            match alistGet acc pp with
            | some ts => alistInsert acc pp (ts ++ [t])
            | none => acc ++ [(pp, [t])]
          else acc
      | none => acc
    else acc) ([] : List (String × List TransformationRecord))
  parentGroups.foldl (fun out group =>
    match getValueAtPath merged group.1 with
    | some (.dict d) =>
        let total := countLeafFields (.dict d)
        let transformed := group.2.length
        if 0 < total ∧ total ≤ 2 * transformed then
          if !pathExistsInConfig group.1 ref then
            out ++ [TransformationRecord.mk group.1 (getRepresentativeNewPath group.2)
              (.str ("[Object with " ++ toString total ++ " field(s)]")) ("move")
              (toString transformed ++ "/" ++ toString total ++
                " child fields transformed, parent not in ENGNEW")
              ("high")]
          else out
        else out
    | _ => out) []

/-- The `for value_key, paths in duplicate_groups.items()` loop of
`detect_duplicate_values`. -/
def analyzeGroupsGo (pvm : List (String × Val)) (ref : Dict) :
    List (String × List String) → List TransformationRecord →
    Option (List TransformationRecord)
  | [], acc => some acc
  | (_, paths) :: rest, acc =>
      if decide (2 ≤ paths.length) then
        match analyzeDuplicatePaths paths pvm ref with
        | some ts => analyzeGroupsGo pvm ref rest (acc ++ ts)
        | none => none
      else analyzeGroupsGo pvm ref rest acc

/-- `PathTransformationDetector.detect_duplicate_values(merged_config,
reference_config)` on a freshly constructed detector: build the indices,
analyze each duplicate group, then replace child Move records by parent-level
records where parent-object transformation fires. -/
def detectDuplicateValues (merged ref : Dict) : Option (List TransformationRecord) :=
  let st := bpvVal (.dict merged) ("") ("") ⟨[], []⟩
  let groups := findDuplicateValueGroups st.vpm
  match analyzeGroupsGo st.pvm ref groups [] with
  | none => none
  | some fieldTs =>
      let parentTs := detectParentObjectTransformations fieldTs merged ref
      let final :=
        if !parentTs.isEmpty then
          fieldTs.filter (fun t => !isChildOfAny t.old_path (parentTs.map (fun pt => pt.old_path)))
        else fieldTs
      some (final ++ parentTs)

/-! ## Auxiliary notions used by the statements and proofs

Python dictionaries never repeat a key; `valWF` states that invariant for an
embedded value (every dict level has pairwise-distinct keys). `dotFreeVal`
states that no mapping key contains the path separator `'.'` — the regime in
which the source's string paths are unambiguous. -/

mutual
/-- Wellformedness of an embedded Python value: every dict has
duplicate-free keys, recursively. All values produced by Python satisfy
this. -/
def valWF : Val → Bool
  | .dict d => decide ((dictKeys d).Nodup) && wfEntries d
  | .list l => wfItems l
  | _ => true

/-- Entry-wise wellformedness. -/
def wfEntries : List (String × Val) → Bool
  | [] => true
  | (_, v) :: rest => valWF v && wfEntries rest

/-- Item-wise wellformedness. -/
def wfItems : List Val → Bool
  | [] => true
  | item :: rest => valWF item && wfItems rest
end

mutual
/-- Every mapping key (at any depth, including inside lists) is nonempty and
contains no `'.'`. -/
def dotFreeVal : Val → Bool
  | .dict d => dfEntries d
  | .list l => dfItems l
  | _ => true

/-- Entry-wise key sanity: the key is nonempty and dot-free, recursively
below it. -/
def dfEntries : List (String × Val) → Bool
  | [] => true
  | (k, v) :: rest =>
      decide (k ≠ "") && decide ('.' ∉ k.data) && dotFreeVal v && dfEntries rest

/-- Item-wise dot-freeness. -/
def dfItems : List Val → Bool
  | [] => true
  | item :: rest => dotFreeVal item && dfItems rest
end

/-- Iterate a migration map's rename chain `n` steps from a path
(`none` when the chain ends earlier). -/
def chainIter (m : List (String × String)) : Nat → String → Option String
  | 0, p => some p
  | n + 1, p =>
      match alistGet m p with
      | some q => chainIter m n q
      | none => none

/-- A path rejected by the validator's format check, as the spec words it:
empty, a leading or trailing dot, or a doubled dot. -/
def pathMalformed (p : String) : Bool :=
  if p = "" then true
  else strStartsWith p (".") || strEndsWith p (".") || strContains p ("..")

/-- The paths enumerated by `_get_all_paths`, characterized relative to one
dict: a key of the dict, or a key of a nonempty dict value extended by a
deeper path. -/
inductive TreePath : Dict → String → Prop where
  | here {d : Dict} {k : String} (v : Val) (hm : (k, v) ∈ d) : TreePath d k
  | deeper {d : Dict} {k p : String} (sub : Dict) (hm : (k, Val.dict sub) ∈ d)
      (hne : sub ≠ []) (hp : TreePath sub p) : TreePath d (k ++ "." ++ p)

/-- The paths `extract_custom_data` can emit, relative to one recursion
level: a captured key (the key absent from the template, or present with a
non-recursing, `!=`-different value), or a key whose golden and template
values are both dicts, extended by a path emitted below. -/
inductive RelPath : Dict → Dict → String → Prop where
  | capture {g t : Dict} {k : String} (v : Val) (hm : (k, v) ∈ g)
      (hc : alistGet t k = none ∨
        ∃ tv, alistGet t k = some tv ∧
          (∀ gsub tsub, v = Val.dict gsub → tv = Val.dict tsub → False) ∧
          pyEq v tv = false) : RelPath g t k
  | deeper {g t : Dict} {k p : String} (gsub tsub : Dict)
      (hm : (k, Val.dict gsub) ∈ g) (ht : alistGet t k = some (Val.dict tsub))
      (hp : RelPath gsub tsub p) : RelPath g t (k ++ "." ++ p)

/-! ## Counterexamples for the claims the code refutes -/

/-- C1 (counterexample): the claim asserts that for every path present in the
old template and absent from the new one the conflict log of
`merge_configurations` has exactly one Deleted/Migrated entry. Here `"a"` is
present in the old template and absent from the new one, but the golden
config does not customize it, so the merge returns an empty log: zero
entries for `"a"`. -/
theorem C1_counterexample :
    mergeConfigurations [("a", Val.int 1)] [("a", Val.int 1)] [] none = .ok ([], []) ∧
    "a" ∈ getAllPaths [("a", Val.int 1)] ∧ "a" ∉ getAllPaths ([] : Dict) :=
  ⟨rfl, by decide, by decide⟩

/-- C2 (counterexample): `merge(T, T, T)` is not the identity. For
`T = {"annotations": 5}` the network-preservation annotation pass rewrites
the value at path `"annotations"` to `{}` (`_merge_annotation_sources` of two
non-dict, non-list values merges to an empty dict), so the final tree is not
deep-equal to `T` (the log is empty, as claimed). -/
theorem C2_counterexample :
    mergeConfigurations [("annotations", Val.int 5)] [("annotations", Val.int 5)]
        [("annotations", Val.int 5)] none =
      .ok ([("annotations", Val.dict [])], []) ∧
    ([("annotations", Val.dict [])] : Dict) ≠ [("annotations", Val.int 5)] := by
  refine ⟨rfl, fun h => ?_⟩
  simp at h

/-- C4 (counterexample): `merge_configurations` performs no migration-map
validation. With the cyclic map `{a -> b, b -> a}` (witnessed by the rename
chain returning to `"a"` after two steps) the merge does not abort: it
completes and produces a final tree. -/
theorem C4_counterexample :
    mergeConfigurations [] [] [] (some [("a", "b"), ("b", "a")]) = .ok ([], []) ∧
    chainIter [("a", "b"), ("b", "a")] 2 ("a") = some "a" :=
  ⟨rfl, rfl⟩

/-- C5 (counterexample): a delta `("a.b", 7)` that is not deleted, not
structural, and exists in the new template, whose value differs from the new
default `1` — yet the merge logs a StructuralMismatch (not an Overwrite) for
it and does not write the value, because the earlier delta `("a", 5)`
replaced the ancestor `a` of `a.b` in the final tree with a scalar and
`set_nested_value` raised. -/
theorem C5_counterexample :
    (match alistGet (applyMigrations
        (extractCustomData [("q", Val.int 5), ("p", Val.int 7)]
          [("q", Val.int 0), ("p", Val.int 0)])
        [("q", "a"), ("p", "a.b")]) ("a.b") with
     | some v => pyEq v (Val.int 7)
     | none => false) = true ∧
    findDeletedPaths [("q", Val.int 0), ("p", Val.int 0)]
      [("a", Val.dict [("b", Val.int 1)]), ("q", Val.int 0), ("p", Val.int 0)] = [] ∧
    findStructuralChanges [("q", Val.int 0), ("p", Val.int 0)]
      [("a", Val.dict [("b", Val.int 1)]), ("q", Val.int 0), ("p", Val.int 0)] = .ok [] ∧
    pathExists [("a", Val.dict [("b", Val.int 1)]), ("q", Val.int 0), ("p", Val.int 0)]
      ("a.b") = true ∧
    getNestedValue [("a", Val.dict [("b", Val.int 1)]), ("q", Val.int 0), ("p", Val.int 0)]
      ("a.b") = .ok (Val.int 1) ∧
    (match mergeConfigurations [("q", Val.int 5), ("p", Val.int 7)]
        [("q", Val.int 0), ("p", Val.int 0)]
        [("a", Val.dict [("b", Val.int 1)]), ("q", Val.int 0), ("p", Val.int 0)]
        (some [("q", "a"), ("p", "a.b")]) with
     | .ok (cfg, log) =>
        decide ((log.filter (fun e => e.path == "a.b" && e.action_type == "OVERWRITE")).length = 0) &&
        decide ((log.filter (fun e => e.path == "a.b" &&
          e.action_type == "STRUCTURAL_MISMATCH")).length = 1) &&
        (pathExists cfg ("a.b") == false)
     | .error _ => false) = true :=
  ⟨rfl, rfl, rfl, rfl, rfl, rfl⟩

/-- C6 (counterexample): a delta `("a.b", "x")` at a structural-change path
whose runtime type (`str`) equals the new default's (`"s"`), yet the merge
logs a StructuralMismatch instead of the claimed Overwrite: the earlier delta
`("a", 5)` replaced the ancestor of `a.b` in the final tree, the write raised
and was swallowed, and the code fell through to the mismatch entry. -/
theorem C6_counterexample :
    findStructuralChanges [("q", Val.int 0), ("p", Val.str "y"), ("a", Val.dict [("b", Val.int 1)])]
      [("q", Val.int 0), ("p", Val.str "y"), ("a", Val.dict [("b", Val.str "s")])] =
      .ok [("a.b", "Type changed from int to str")] ∧
    typeTag (Val.str "x") = typeTag (Val.str "s") ∧
    (match mergeConfigurations [("q", Val.int 5), ("p", Val.str "x")]
        [("q", Val.int 0), ("p", Val.str "y"), ("a", Val.dict [("b", Val.int 1)])]
        [("q", Val.int 0), ("p", Val.str "y"), ("a", Val.dict [("b", Val.str "s")])]
        (some [("q", "a"), ("p", "a.b")]) with
     | .ok (cfg, log) =>
        decide ((log.filter (fun e => e.path == "a.b" && e.action_type == "OVERWRITE")).length = 0) &&
        decide ((log.filter (fun e => e.path == "a.b" &&
          e.action_type == "STRUCTURAL_MISMATCH")).length = 1) &&
        (pathExists cfg ("a.b") == false)
     | .error _ => false) = true :=
  ⟨rfl, rfl, rfl⟩

/-- C7 (counterexample): a discovered migration with confidence 0.6 and a
best candidate flagged for human review is outside the auto-apply set, yet
`create_migration_map` with `include_low_confidence=False` still maps it
(the function only drops entries below confidence 0.5). -/
theorem C7_counterexample :
    createMigrationMap [⟨"old.path", Val.int 1,
        [⟨"new.path", "field_name", mkRat 3 5, "", true, none, none⟩],
        some ⟨"new.path", "field_name", mkRat 3 5, "", true, none, none⟩,
        mkRat 3 5, "field_rename"⟩] false = [("old.path", "new.path")] ∧
    getAutoApplyMigrations [⟨"old.path", Val.int 1,
        [⟨"new.path", "field_name", mkRat 3 5, "", true, none, none⟩],
        some ⟨"new.path", "field_name", mkRat 3 5, "", true, none, none⟩,
        mkRat 3 5, "field_rename"⟩] = [] :=
  ⟨rfl, rfl⟩

/-- C8 (counterexample): with keys containing the path separator, the delta
set contains both a path and a strict descendant of it in canonical string
form: golden `{"a": 1, "a.b": 2}` against the empty template yields exactly
the delta paths `"a"` and `"a.b" = "a" ++ "." ++ "b"`. -/
theorem C8_counterexample :
    extractCustomData [("a", Val.int 1), ("a.b", Val.int 2)] [] =
      [("a", Val.int 1), ("a.b", Val.int 2)] ∧
    ("a.b" : String) = "a" ++ "." ++ "b" :=
  ⟨rfl, rfl⟩

/-- C9 (counterexample): in the duplicate group `{"a.x", "b.x"}` (value "v")
exactly one path, `b.x`, exists in the reference, so the claim demands a Move
record from `a.x`. But `detect_duplicate_values` suppresses it: the parent
`a` has 100% of its fields moving and is absent from the reference, so the
child record is replaced by a parent-level record and no emitted record has
old path `a.x`. -/
theorem C9_counterexample :
    findDuplicateValueGroups (bpvVal (Val.dict [("a", Val.dict [("x", Val.str "v")]),
      ("b", Val.dict [("x", Val.str "v")])]) ("") ("") ⟨[], []⟩).vpm =
      [("x:v", ["a.x", "b.x"])] ∧
    pathExistsInConfig ("b.x") [("b", Val.dict [("x", Val.str "v")])] = true ∧
    pathExistsInConfig ("a.x") [("b", Val.dict [("x", Val.str "v")])] = false ∧
    (match detectDuplicateValues
        [("a", Val.dict [("x", Val.str "v")]), ("b", Val.dict [("x", Val.str "v")])]
        [("b", Val.dict [("x", Val.str "v")])] with
     | some ts => decide ((ts.filter (fun t => t.old_path == "a.x")).length = 0)
     | none => false) = true :=
  ⟨rfl, rfl, rfl, rfl⟩

/-! ## Supporting lemmas -/

theorem alistInsert_of_not_mem {β : Type} (l : List (String × β)) (k : String) (v : β)
    (h : k ∉ l.map Prod.fst) : alistInsert l k v = l ++ [(k, v)] := by
  induction l with
  | nil => rfl
  | cons kv rest ih =>
      obtain ⟨k2, v2⟩ := kv
      simp only [List.map_cons, List.mem_cons] at h
      push_neg at h
      have hne : ¬(k2 = k) := fun he => h.1 he.symm
      simp only [alistInsert, if_neg hne, ih h.2, List.cons_append]

/-! ## C9: per-group analysis with exactly one path present in the reference -/

/-- C9 (amended): for a duplicate-value group in which exactly one path
exists in the reference template (and at least one does not), the per-group
analysis `_analyze_duplicate_paths` emits exactly one Move record,
confidence high, from each absent path to the single present path. (As
stated over the whole of `detect_duplicate_values` the claim fails: see the
counterexample, where whole-object detection replaces the child record.) -/
theorem C9_single_present_amended
    (paths : List String) (p0 : String) (rest : List String)
    (pvm : List (String × Val)) (ref : Dict) (v : Val)
    (hps : paths = p0 :: rest)
    (hv : alistGet pvm p0 = some v)
    (hone : (paths.filter (fun p => pathExistsInConfig p ref)).length = 1)
    (habs : 1 ≤ (paths.filter (fun p => !pathExistsInConfig p ref)).length) :
    analyzeDuplicatePaths paths pvm ref =
      some ((paths.filter (fun p => !pathExistsInConfig p ref)).map
        (fun old => TransformationRecord.mk old
          ((paths.filter (fun p => pathExistsInConfig p ref)).headD ("")) v
          ("move") ("new_path exists in ENGNEW reference, old_path does not") ("high"))) := by
  subst hps
  simp only [analyzeDuplicatePaths, hv]
  rw [if_pos ⟨hone, habs⟩]

/-- C9 witness: the amended theorem applied to the group `["a.x", "b.x"]`
with only `b.x` present in the reference. -/
theorem C9_witness :
    analyzeDuplicatePaths ["a.x", "b.x"] [("a.x", Val.str "v"), ("b.x", Val.str "v")]
      [("b", Val.dict [("x", Val.str "v")])] =
      some [TransformationRecord.mk ("a.x") ("b.x") (Val.str "v") ("move")
        ("new_path exists in ENGNEW reference, old_path does not") ("high")] :=
  (C9_single_present_amended ["a.x", "b.x"] ("a.x") ["b.x"]
    [("a.x", Val.str "v"), ("b.x", Val.str "v")] [("b", Val.dict [("x", Val.str "v")])]
    (Val.str "v") rfl rfl (by decide) (by decide)).trans rfl

/-! ## C7: what create_migration_map actually selects -/

/-- C7 (amended): with `include_low_confidence=False`, the migration map
contains exactly one entry `old_path -> best.new_path` for each migration
that has a best candidate and confidence at least 0.5 — regardless of the
review flag or the 0.8 auto-apply threshold — and no entry for any other
migration (assuming the selected migrations have pairwise distinct old
paths, as dict insertion otherwise overwrites). -/
theorem C7_migration_map_amended (ms : List DiscoveredMigration)
    (hnd : ((ms.filterMap (fun m =>
        match m.best_candidate with
        | some b =>
            if decide (m.confidence < mkRat 1 2) then none
            else some (m.old_path, b.new_path)
        | none => none)).map Prod.fst).Nodup) :
    createMigrationMap ms false =
      ms.filterMap (fun m =>
        match m.best_candidate with
        | some b =>
            if decide (m.confidence < mkRat 1 2) then none
            else some (m.old_path, b.new_path)
        | none => none) := by
  unfold createMigrationMap
  suffices h : ∀ (l : List DiscoveredMigration) (acc : List (String × String)),
      ((acc ++ l.filterMap (fun m =>
        match m.best_candidate with
        | some b =>
            if decide (m.confidence < mkRat 1 2) then none
            else some (m.old_path, b.new_path)
        | none => none)).map Prod.fst).Nodup →
      createMigrationMapGo l false acc =
        acc ++ l.filterMap (fun m =>
          match m.best_candidate with
          | some b =>
              if decide (m.confidence < mkRat 1 2) then none
              else some (m.old_path, b.new_path)
          | none => none) by
    simpa using h ms [] (by simpa using hnd)
  intro l
  induction l with
  | nil => intro acc _; simp [createMigrationMapGo]
  | cons m rest ih =>
      intro acc h
      rw [List.filterMap_cons] at h ⊢
      rw [createMigrationMapGo]
      cases hb : m.best_candidate with
      | none =>
          simp only [hb] at h ⊢
          exact ih acc h
      | some best =>
          simp only [hb, Bool.not_false, Bool.and_true] at h ⊢
          by_cases hc : m.confidence < mkRat 1 2
          · simp only [decide_eq_true hc, if_true] at h ⊢
            exact ih acc h
          · simp only [decide_eq_false hc, Bool.false_eq_true, if_false] at h ⊢
            have hfresh : m.old_path ∉ acc.map Prod.fst := by
              intro hmem
              rw [List.map_append] at h
              have hd := (List.nodup_append.mp h).2.2
              exact hd hmem (by simp)
            rw [alistInsert_of_not_mem acc m.old_path best.new_path hfresh]
            rw [ih (acc ++ [(m.old_path, best.new_path)]) (by simpa using h)]
            simp

/-- C7 witness: the amended theorem applied to one qualifying migration
(confidence 0.6, flagged for review) producing exactly its map entry. -/
theorem C7_witness :
    createMigrationMap [⟨"sa.name", Val.str "acct",
      [⟨"accounts.name", "field_name", mkRat 3 5, "", true, none, none⟩],
      some ⟨"accounts.name", "field_name", mkRat 3 5, "", true, none, none⟩,
      mkRat 3 5, "field_rename"⟩] false = [("sa.name", "accounts.name")] :=
  (C7_migration_map_amended [⟨"sa.name", Val.str "acct",
    [⟨"accounts.name", "field_name", mkRat 3 5, "", true, none, none⟩],
    some ⟨"accounts.name", "field_name", mkRat 3 5, "", true, none, none⟩,
    mkRat 3 5, "field_rename"⟩] (by decide)).trans rfl

/-! ## C5 and C6: single-conflict resolution with a successful write -/

/-- C5 (amended): for a delta whose path is not among the deleted paths, not
among the structural changes, and resolvable in the new template, *provided
writing the value into the partially built final tree succeeds* (no earlier
delta replaced an ancestor of the path with a non-mapping), the resolution
writes the value and yields exactly one Overwrite entry with
manual_review=false iff the value differs (Python `==`) from the new
template's default; when it equals the default the write happens but no
entry is produced. (Without the proviso the claim fails: see the
counterexample, where the swallowed write error produces a
StructuralMismatch instead.) -/
theorem C5_overwrite_amended
    (path : String) (cv : Val) (finalConfig templateNew templateOld : Dict)
    (deleted : List String) (structural : List (String × String)) (final2 : Dict) (nd : Val)
    (hdel : path ∉ deleted)
    (hstr : alistGet structural path = none)
    (hnd : getNestedValue templateNew path = .ok nd)
    (hset : setNestedValue finalConfig path cv = (final2, none)) :
    resolveSingleConflict path cv finalConfig templateNew templateOld deleted structural =
      .ok (final2,
        if pyEq cv nd then none
        else some (createLogEntry path .OVERWRITE cv cv nd
          ("Custom value preserved from old configuration") false)) := by
  simp only [resolveSingleConflict, hstr, pathExists, hnd, hset]
  rw [if_pos trivial]
  split <;> simp_all

/-- C5 witness: a delta `("a", 2)` over new-template default `1` resolves to
a write plus one Overwrite entry with manual_review=false. -/
theorem C5_witness :
    resolveSingleConflict ("a") (Val.int 2) [("a", Val.int 1)] [("a", Val.int 1)] [] [] [] =
      .ok ([("a", Val.int 2)],
        some (createLogEntry ("a") .OVERWRITE (Val.int 2) (Val.int 2) (Val.int 1)
          ("Custom value preserved from old configuration") false)) :=
  (C5_overwrite_amended ("a") (Val.int 2) [("a", Val.int 1)] [("a", Val.int 1)] [] [] []
    [("a", Val.int 2)] (Val.int 1) (by decide) rfl rfl rfl).trans rfl

/-- C6 (amended): for a delta at a structural-change path that resolves in
the new template, *provided writing into the partially built final tree
succeeds*: equal runtime types give a write plus one Overwrite entry with
manual_review=true citing the mismatch description; differing types keep the
new default and give one StructuralMismatch entry with manual_review=true.
(Without the proviso the claim fails: see the counterexample, where the
type-compatible write raised and the code fell through to a
StructuralMismatch.) -/
theorem C6_structural_amended
    (path : String) (cv : Val) (finalConfig templateNew templateOld : Dict)
    (deleted : List String) (structural : List (String × String)) (desc : String)
    (final2 : Dict) (nd : Val)
    (hstr : alistGet structural path = some desc)
    (hnd : getNestedValue templateNew path = .ok nd)
    (hset : setNestedValue finalConfig path cv = (final2, none)) :
    resolveSingleConflict path cv finalConfig templateNew templateOld deleted structural =
      (if typeTag cv = typeTag nd then
        .ok (final2, some (createLogEntry path .OVERWRITE cv cv nd
          ("Custom value applied despite structural change: " ++ desc) true))
      else
        .ok (finalConfig, some (createLogEntry path .STRUCTURAL_MISMATCH cv nd nd
          ("Cannot apply custom value due to type change: " ++ desc) true))) := by
  simp only [resolveSingleConflict, hstr, pathExists, hnd, hset]
  by_cases ht : typeTag cv = typeTag nd
  · simp [ht]
  · simp [ht]

/-- C6 witness: a type-compatible delta (`"x"` over default `"s"`) at the
structural-change path `"a"` is written and logged as Overwrite with
manual_review=true citing the change description. -/
theorem C6_witness :
    resolveSingleConflict ("a") (Val.str "x") [("a", Val.int 1)] [("a", Val.str "s")] [] []
      [("a", "Type changed from int to str")] =
      .ok ([("a", Val.str "x")],
        some (createLogEntry ("a") .OVERWRITE (Val.str "x") (Val.str "x") (Val.str "s")
          ("Custom value applied despite structural change: Type changed from int to str")
          true)) :=
  (C6_structural_amended ("a") (Val.str "x") [("a", Val.int 1)] [("a", Val.str "s")] [] []
    [("a", "Type changed from int to str")] ("Type changed from int to str")
    [("a", Val.str "x")] (Val.str "s") rfl rfl rfl).trans rfl

/-! ## C10: the merge only ever emits Overwrite, Deleted, StructuralMismatch -/

theorem resolveSingle_entry_spec
    (path : String) (cv : Val) (f tn tOld : Dict) (del : List String)
    (str : List (String × String)) (f2 : Dict) (e : LogEntry)
    (h : resolveSingleConflict path cv f tn tOld del str = .ok (f2, some e)) :
    e.path = path ∧ (e.action_type = "OVERWRITE" ∨ e.action_type = "DELETED" ∨
      e.action_type = "STRUCTURAL_MISMATCH") := by
  cases hsc : alistGet str path with
  | none =>
      by_cases hex : pathExists tn path = true
      · cases hget : getNestedValue tn path with
        | error e2 =>
            simp [resolveSingleConflict, hsc, hex, hget, createLogEntry,
              ConflictResolution.value] at h
            obtain ⟨h1, h2⟩ := h
            subst h2
            exact ⟨rfl, Or.inr (Or.inr rfl)⟩
        | ok nd =>
            rcases hset : setNestedValue f path cv with ⟨f3, err⟩
            cases err with
            | none =>
                by_cases hpe : pyEq cv nd = true
                · simp [resolveSingleConflict, hsc, hex, hget, hset, hpe] at h
                · simp [resolveSingleConflict, hsc, hex, hget, hset, hpe] at h
                  obtain ⟨h1, h2⟩ := h
                  subst h2
                  exact ⟨rfl, Or.inl rfl⟩
            | some pe =>
                cases pe with
                | valueError m =>
                    simp [resolveSingleConflict, hsc, hex, hget, hset] at h
                | keyError m =>
                    simp [resolveSingleConflict, hsc, hex, hget, hset] at h
                    obtain ⟨h1, h2⟩ := h
                    subst h2
                    exact ⟨rfl, Or.inr (Or.inr rfl)⟩
                | typeError m =>
                    simp [resolveSingleConflict, hsc, hex, hget, hset] at h
                    obtain ⟨h1, h2⟩ := h
                    subst h2
                    exact ⟨rfl, Or.inr (Or.inr rfl)⟩
      · simp [resolveSingleConflict, hsc, hex] at h
        obtain ⟨h1, h2⟩ := h
        subst h2
        exact ⟨rfl, Or.inr (Or.inl rfl)⟩
  | some desc =>
      by_cases hex : pathExists tn path = true
      · cases hget : getNestedValue tn path with
        | error e2 =>
            simp [resolveSingleConflict, hsc, hex, hget] at h
            obtain ⟨h1, h2⟩ := h
            subst h2
            exact ⟨rfl, Or.inr (Or.inr rfl)⟩
        | ok nd =>
            by_cases hty : typeTag cv = typeTag nd
            · rcases hset : setNestedValue f path cv with ⟨f3, err⟩
              cases err with
              | none =>
                  simp [resolveSingleConflict, hsc, hex, hget, hty, hset] at h
                  obtain ⟨h1, h2⟩ := h
                  subst h2
                  exact ⟨rfl, Or.inl rfl⟩
              | some pe =>
                  cases pe with
                  | valueError m =>
                      simp [resolveSingleConflict, hsc, hex, hget, hty, hset] at h
                  | keyError m =>
                      simp [resolveSingleConflict, hsc, hex, hget, hty, hset] at h
                      obtain ⟨h1, h2⟩ := h
                      subst h2
                      exact ⟨rfl, Or.inr (Or.inr rfl)⟩
                  | typeError m =>
                      simp [resolveSingleConflict, hsc, hex, hget, hty, hset] at h
                      obtain ⟨h1, h2⟩ := h
                      subst h2
                      exact ⟨rfl, Or.inr (Or.inr rfl)⟩
            · simp [resolveSingleConflict, hsc, hex, hget, hty] at h
              obtain ⟨h1, h2⟩ := h
              subst h2
              exact ⟨rfl, Or.inr (Or.inr rfl)⟩
      · simp [resolveSingleConflict, hsc, hex] at h
        obtain ⟨h1, h2⟩ := h
        subst h2
        exact ⟨rfl, Or.inr (Or.inr rfl)⟩



theorem resolveGo_actions
    (tn tOld : Dict) (del : List String) (str : List (String × String)) :
    ∀ (items : List (String × Val)) (f : Dict) (log : List LogEntry)
      (F : Dict) (L : List LogEntry),
    resolveGo tn tOld del str items f log = .ok (F, L) →
    (∀ e ∈ log, e.action_type = "OVERWRITE" ∨ e.action_type = "DELETED" ∨
      e.action_type = "STRUCTURAL_MISMATCH") →
    ∀ e ∈ L, e.action_type = "OVERWRITE" ∨ e.action_type = "DELETED" ∨
      e.action_type = "STRUCTURAL_MISMATCH" := by
  intro items
  induction items with
  | nil =>
      intro f log F L h hlog
      simp only [resolveGo, Except.ok.injEq, Prod.mk.injEq] at h
      obtain ⟨h1, h2⟩ := h
      subst h2
      exact hlog
  | cons qv rest ih =>
      obtain ⟨q, v⟩ := qv
      intro f log F L h hlog
      rw [resolveGo] at h
      by_cases hq : q ∈ del
      · rw [if_pos hq] at h
        refine ih f _ F L h ?_
        intro e he
        rcases List.mem_append.mp he with he1 | he2
        · exact hlog e he1
        · have he3 : e = deletedLogEntry q v := by simpa using he2
          subst he3
          exact Or.inr (Or.inl rfl)
      · rw [if_neg hq] at h
        cases hr : resolveSingleConflict q v f tn tOld del str with
        | error e2 => rw [hr] at h; cases h
        | ok p =>
            obtain ⟨f3, entry⟩ := p
            rw [hr] at h
            refine ih f3 _ F L h ?_
            intro e he
            rcases List.mem_append.mp he with he1 | he2
            · exact hlog e he1
            · cases entry with
              | none => simp [Option.toList] at he2
              | some e0 =>
                  have he3 : e = e0 := by simpa [Option.toList] using he2
                  subst he3
                  exact (resolveSingle_entry_spec q v f tn tOld del str f3 e hr).2

theorem addNetworkLogs_actions (log : List LogEntry) (s : List (String × List String))
    (hlog : ∀ e ∈ log, e.action_type = "OVERWRITE" ∨ e.action_type = "DELETED" ∨
      e.action_type = "STRUCTURAL_MISMATCH") :
    ∀ e ∈ addNetworkPreservationLogs log s,
      e.action_type = "OVERWRITE" ∨ e.action_type = "DELETED" ∨
      e.action_type = "STRUCTURAL_MISMATCH" := by
  intro e he
  simp only [addNetworkPreservationLogs] at he
  split at he
  · rcases List.mem_append.mp he with he1 | he2
    · exact hlog e he1
    · have he3 := by simpa using he2
      subst he3
      exact Or.inl rfl
  · exact hlog e he

/-- C10: for every golden config, old template, new template and rename map,
every entry of the conflict log returned by `merge_configurations` has
action Overwrite, Deleted, or StructuralMismatch — the merge never emits
Added or Migrated, although both belong to the `ConflictResolution`
taxonomy. -/
theorem C10_actions_closed
    (g tOld tn : Dict) (mm : Option (List (String × String))) (cfg : Dict)
    (log : List LogEntry)
    (h : mergeConfigurations g tOld tn mm = .ok (cfg, log)) :
    ∀ e ∈ log, e.action_type = ConflictResolution.OVERWRITE.value ∨
      e.action_type = ConflictResolution.DELETED.value ∨
      e.action_type = ConflictResolution.STRUCTURAL_MISMATCH.value := by
  simp only [mergeConfigurations] at h
  split at h
  · cases h
  · rename_i res final1 log1 hr
    split at h
    · cases h
    · rename_i final2 hp
      simp only [Except.ok.injEq, Prod.mk.injEq] at h
      obtain ⟨h1, h2⟩ := h
      subst h2
      simp only [resolveConflicts] at hr
      split at hr
      · cases hr
      · rename_i structural hs
        exact addNetworkLogs_actions log1 _
          (resolveGo_actions tn tOld _ structural _ tn [] final1 log1 hr
            (by intro e he; cases he))


/-- C10 witness: the theorem applied to a concrete merge whose log holds one
Deleted entry. -/
theorem C10_witness :
    (deletedLogEntry ("b") (Val.int 2)).action_type = ConflictResolution.OVERWRITE.value ∨
    (deletedLogEntry ("b") (Val.int 2)).action_type = ConflictResolution.DELETED.value ∨
    (deletedLogEntry ("b") (Val.int 2)).action_type =
      ConflictResolution.STRUCTURAL_MISMATCH.value :=
  C10_actions_closed [("a", Val.int 1), ("b", Val.int 2)] [("a", Val.int 1), ("b", Val.int 0)]
    [("a", Val.int 1)] none [("a", Val.int 1)] [deletedLogEntry ("b") (Val.int 2)] rfl
    (deletedLogEntry ("b") (Val.int 2)) (List.mem_singleton.mpr rfl)



/-! ## C1: deleted paths in the conflict log -/

theorem dictKeys_alistInsert {b : Type} (d : List (String × b)) (k : String) (v : b) :
    dictKeys (alistInsert d k v) =
      if k ∈ dictKeys d then dictKeys d else dictKeys d ++ [k] := by
  induction d with
  | nil => simp [alistInsert, dictKeys]
  | cons kv rest ih =>
      obtain ⟨k2, w⟩ := kv
      by_cases h : k2 = k
      · subst h
        simp [alistInsert, dictKeys]
      · rw [show alistInsert ((k2, w) :: rest) k v = (k2, w) :: alistInsert rest k v from by
          simp [alistInsert, h]]
        simp only [dictKeys, List.map_cons] at ih ⊢
        rw [ih]
        by_cases h2 : k ∈ List.map Prod.fst rest
        · rw [if_pos h2, if_pos (List.mem_cons_of_mem _ h2)]
        · rw [if_neg h2, if_neg ?_, List.cons_append]
          intro hc
          rcases List.mem_cons.mp hc with h3 | h3
          · exact h h3.symm
          · exact h2 h3

theorem nodup_keys_alistInsert {b : Type} (d : List (String × b)) (k : String) (v : b)
    (h : (dictKeys d).Nodup) : (dictKeys (alistInsert d k v)).Nodup := by
  rw [dictKeys_alistInsert]
  split
  · exact h
  · rename_i hk
    rw [List.nodup_append]
    exact ⟨h, List.nodup_singleton _, fun a ha hb => hk ((List.mem_singleton.mp hb) ▸ ha)⟩

mutual
theorem extractEntries_nodup : ∀ (gs : List (String × Val)) (t acc : Dict) (pre : String),
    (dictKeys acc).Nodup → (dictKeys (extractEntries gs t acc pre)).Nodup
  | [], _, _, _, h => by rw [extractEntries]; exact h
  | (k, gv) :: rest, t, acc, pre, h => by
      rw [extractEntries]
      exact extractEntries_nodup rest t _ pre (extractOne_nodup k gv t acc (joinPath pre k) h)

theorem extractOne_nodup : ∀ (k : String) (gv : Val) (t acc : Dict) (cur : String),
    (dictKeys acc).Nodup → (dictKeys (extractOne k gv t acc cur)).Nodup
  | k, .dict gsub, t, acc, cur, h => by
      have he0 : extractOne k (Val.dict gsub) t acc cur = (match alistGet t k with
        | none => alistInsert acc cur (Val.dict gsub)
        | some (Val.dict tsub) => extractEntries gsub tsub acc cur
        | some tv => if pyEq (Val.dict gsub) tv = true then acc
                     else alistInsert acc cur (Val.dict gsub)) := rfl
      cases halist : alistGet t k with
      | none =>
          rw [he0, halist]
          exact nodup_keys_alistInsert acc cur _ h
      | some tv =>
          cases tv with
          | dict tsub =>
              rw [he0, halist]
              exact extractEntries_nodup gsub tsub acc cur h
          | null =>
              rw [he0, halist]
              exact nodup_keys_alistInsert acc cur _ h
          | bool b2 =>
              rw [he0, halist]
              exact nodup_keys_alistInsert acc cur _ h
          | int n2 =>
              rw [he0, halist]
              exact nodup_keys_alistInsert acc cur _ h
          | str s2 =>
              rw [he0, halist]
              exact nodup_keys_alistInsert acc cur _ h
          | list xs2 =>
              rw [he0, halist]
              exact nodup_keys_alistInsert acc cur _ h
  | k, Val.null, t, acc, cur, h => by
      have he0 : extractOne k (Val.null) t acc cur = (match alistGet t k with
        | none => alistInsert acc cur (Val.null)
        | some tv => if pyEq (Val.null) tv = true then acc
                     else alistInsert acc cur (Val.null)) := rfl
      cases halist : alistGet t k with
      | none =>
          rw [he0, halist]
          exact nodup_keys_alistInsert acc cur _ h
      | some tv =>
          rw [he0, halist]
          show (dictKeys (if pyEq (Val.null) tv = true then acc
            else alistInsert acc cur (Val.null))).Nodup
          split
          · exact h
          · exact nodup_keys_alistInsert acc cur _ h
  | k, Val.bool b0, t, acc, cur, h => by
      have he0 : extractOne k (Val.bool b0) t acc cur = (match alistGet t k with
        | none => alistInsert acc cur (Val.bool b0)
        | some tv => if pyEq (Val.bool b0) tv = true then acc
                     else alistInsert acc cur (Val.bool b0)) := rfl
      cases halist : alistGet t k with
      | none =>
          rw [he0, halist]
          exact nodup_keys_alistInsert acc cur _ h
      | some tv =>
          rw [he0, halist]
          show (dictKeys (if pyEq (Val.bool b0) tv = true then acc
            else alistInsert acc cur (Val.bool b0))).Nodup
          split
          · exact h
          · exact nodup_keys_alistInsert acc cur _ h
  | k, Val.int n0, t, acc, cur, h => by
      have he0 : extractOne k (Val.int n0) t acc cur = (match alistGet t k with
        | none => alistInsert acc cur (Val.int n0)
        | some tv => if pyEq (Val.int n0) tv = true then acc
                     else alistInsert acc cur (Val.int n0)) := rfl
      cases halist : alistGet t k with
      | none =>
          rw [he0, halist]
          exact nodup_keys_alistInsert acc cur _ h
      | some tv =>
          rw [he0, halist]
          show (dictKeys (if pyEq (Val.int n0) tv = true then acc
            else alistInsert acc cur (Val.int n0))).Nodup
          split
          · exact h
          · exact nodup_keys_alistInsert acc cur _ h
  | k, Val.str s0, t, acc, cur, h => by
      have he0 : extractOne k (Val.str s0) t acc cur = (match alistGet t k with
        | none => alistInsert acc cur (Val.str s0)
        | some tv => if pyEq (Val.str s0) tv = true then acc
                     else alistInsert acc cur (Val.str s0)) := rfl
      cases halist : alistGet t k with
      | none =>
          rw [he0, halist]
          exact nodup_keys_alistInsert acc cur _ h
      | some tv =>
          rw [he0, halist]
          show (dictKeys (if pyEq (Val.str s0) tv = true then acc
            else alistInsert acc cur (Val.str s0))).Nodup
          split
          · exact h
          · exact nodup_keys_alistInsert acc cur _ h
  | k, Val.list xs0, t, acc, cur, h => by
      have he0 : extractOne k (Val.list xs0) t acc cur = (match alistGet t k with
        | none => alistInsert acc cur (Val.list xs0)
        | some tv => if pyEq (Val.list xs0) tv = true then acc
                     else alistInsert acc cur (Val.list xs0)) := rfl
      cases halist : alistGet t k with
      | none =>
          rw [he0, halist]
          exact nodup_keys_alistInsert acc cur _ h
      | some tv =>
          rw [he0, halist]
          show (dictKeys (if pyEq (Val.list xs0) tv = true then acc
            else alistInsert acc cur (Val.list xs0))).Nodup
          split
          · exact h
          · exact nodup_keys_alistInsert acc cur _ h
end

theorem getNetworkCriticalSummary_nil (c : Dict) : getNetworkCriticalSummary c = [] := by
  unfold getNetworkCriticalSummary
  generalize identifyNetworkCriticalPaths c = l
  induction l with
  | nil => rfl
  | cons x xs ih => exact ih

theorem addNetworkPreservationLogs_nil (log : List LogEntry) :
    addNetworkPreservationLogs log [] = log := rfl

theorem resolveGo_filter_none
    (tn tOld : Dict) (del : List String) (str : List (String × String)) (P : String) :
    ∀ (items : List (String × Val)) (f : Dict) (log : List LogEntry)
      (F : Dict) (L : List LogEntry),
    P ∉ dictKeys items →
    resolveGo tn tOld del str items f log = .ok (F, L) →
    L.filter (fun e => e.path == P) = log.filter (fun e => e.path == P) := by
  intro items
  induction items with
  | nil =>
      intro f log F L hPn h
      simp only [resolveGo, Except.ok.injEq, Prod.mk.injEq] at h
      obtain ⟨h1, h2⟩ := h
      subst h2
      rfl
  | cons qv rest ih =>
      obtain ⟨q, v⟩ := qv
      intro f log F L hPn h
      simp only [dictKeys, List.map_cons, List.mem_cons, not_or] at hPn
      obtain ⟨hPq, hPr⟩ := hPn
      rw [resolveGo] at h
      by_cases hq : q ∈ del
      · rw [if_pos hq] at h
        rw [ih f _ F L hPr h, List.filter_append]
        have hone : List.filter (fun e => e.path == P) ([deletedLogEntry q v]) = [] := by
          simp [deletedLogEntry, createLogEntry]
          exact fun hc => hPq hc.symm
        rw [hone, List.append_nil]
      · rw [if_neg hq] at h
        cases hr : resolveSingleConflict q v f tn tOld del str with
        | error e2 => rw [hr] at h; cases h
        | ok p =>
            obtain ⟨f3, entry⟩ := p
            rw [hr] at h
            rw [ih f3 _ F L hPr h, List.filter_append]
            cases entry with
            | none => simp [Option.toList]
            | some e0 =>
                have hone : List.filter (fun e => e.path == P) (Option.toList (some e0)) = [] := by
                  have hp0 := (resolveSingle_entry_spec q v f tn tOld del str f3 e0 hr).1
                  simp [Option.toList, hp0]
                  exact fun hc => hPq hc.symm
                rw [hone, List.append_nil]

theorem resolveGo_filter_deleted
    (tn tOld : Dict) (del : List String) (str : List (String × String)) (P : String) :
    ∀ (items : List (String × Val)) (f : Dict) (log : List LogEntry)
      (F : Dict) (L : List LogEntry),
    P ∈ dictKeys items → (dictKeys items).Nodup → P ∈ del →
    resolveGo tn tOld del str items f log = .ok (F, L) →
    (L.filter (fun e => e.path == P)).map (fun e => e.action_type) =
      (log.filter (fun e => e.path == P)).map (fun e => e.action_type) ++
        [ConflictResolution.DELETED.value] := by
  intro items
  induction items with
  | nil =>
      intro f log F L hPm _ _ _
      simp [dictKeys] at hPm
  | cons qv rest ih =>
      obtain ⟨q, v⟩ := qv
      intro f log F L hPm hnd hPd h
      rw [resolveGo] at h
      by_cases hPq : q = P
      · subst hPq
        rw [if_pos hPd] at h
        have hrest : q ∉ dictKeys rest := by
          simp only [dictKeys, List.map_cons, List.nodup_cons] at hnd
          exact hnd.1
        have hfn := resolveGo_filter_none tn tOld del str q rest f _ F L hrest h
        rw [hfn, List.filter_append]
        have hone : List.filter (fun e => e.path == q) ([deletedLogEntry q v]) =
            [deletedLogEntry q v] := by
          simp [deletedLogEntry, createLogEntry]
        rw [hone, List.map_append]
        simp [deletedLogEntry, createLogEntry, ConflictResolution.value]
      · have hPm2 : P ∈ dictKeys rest := by
          simp only [dictKeys, List.map_cons, List.mem_cons] at hPm
          rcases hPm with h1 | h2
          · exact absurd h1.symm hPq
          · exact h2
        have hnd2 : (dictKeys rest).Nodup := by
          simp only [dictKeys, List.map_cons, List.nodup_cons] at hnd
          exact hnd.2
        by_cases hq : q ∈ del
        · rw [if_pos hq] at h
          rw [ih f _ F L hPm2 hnd2 hPd h, List.filter_append]
          have hone : List.filter (fun e => e.path == P) ([deletedLogEntry q v]) = [] := by
            simp [deletedLogEntry, createLogEntry]
            exact hPq
          rw [hone, List.append_nil]
        · rw [if_neg hq] at h
          cases hr : resolveSingleConflict q v f tn tOld del str with
          | error e2 => rw [hr] at h; cases h
          | ok p =>
              obtain ⟨f3, entry⟩ := p
              rw [hr] at h
              rw [ih f3 _ F L hPm2 hnd2 hPd h, List.filter_append]
              cases entry with
              | none => simp [Option.toList]
              | some e0 =>
                  have hone :
                      List.filter (fun e => e.path == P) (Option.toList (some e0)) = [] := by
                    have hp0 := (resolveSingle_entry_spec q v f tn tOld del str f3 e0 hr).1
                    simp [Option.toList, hp0]
                    exact hPq
                  rw [hone, List.append_nil]

/-- C1 (amended): for every golden config, old template and new template,
every path `P` that the extraction step records as a customization and that is
among the paths deleted between the templates gives rise, in a successful
merge without a rename map, to exactly one conflict-log entry whose path is
`P`, and that entry has action Deleted. (The unamended claim, quantifying
over every deleted path, fails: a deleted path carrying no customization
produces no entry at all, and the `Migrated` action is never emitted.) -/
theorem C1_deleted_amended
    (g tOld tn : Dict) (P : String) (F : Dict) (L : List LogEntry)
    (hmem : P ∈ dictKeys (extractCustomData g tOld))
    (hdel : P ∈ findDeletedPaths tOld tn)
    (h : mergeConfigurations g tOld tn none = .ok (F, L)) :
    (L.filter (fun e => e.path == P)).map (fun e => e.action_type) =
      [ConflictResolution.DELETED.value] := by
  simp only [mergeConfigurations] at h
  split at h
  · cases h
  · rename_i res final1 log1 hr
    split at h
    · cases h
    · rename_i final2 hp
      simp only [Except.ok.injEq, Prod.mk.injEq] at h
      obtain ⟨h1, h2⟩ := h
      subst h2
      rw [getNetworkCriticalSummary_nil, addNetworkPreservationLogs_nil]
      simp only [resolveConflicts] at hr
      split at hr
      · cases hr
      · rename_i structural hs
        have hnd : (dictKeys (extractCustomData g tOld)).Nodup :=
          extractEntries_nodup g tOld [] ("") List.nodup_nil
        have hmain := resolveGo_filter_deleted tn tOld (findDeletedPaths tOld tn) structural P
          (extractCustomData g tOld) tn [] final1 log1 hmem hnd hdel hr
        simpa using hmain

/-- C1 witness: a concrete merge where the customized key `b` is deleted in
the new template; its log holds exactly one entry for `b`, a Deleted one. -/
theorem C1_witness :
    (([deletedLogEntry ("b") (Val.int 2)].filter
        (fun e => e.path == ("b"))).map (fun e => e.action_type)) =
      [ConflictResolution.DELETED.value] :=
  C1_deleted_amended [("a", Val.int 1), ("b", Val.int 2)]
    [("a", Val.int 1), ("b", Val.int 0)] [("a", Val.int 1)] ("b")
    [("a", Val.int 1)] [deletedLogEntry ("b") (Val.int 2)]
    (by decide) (by decide) rfl



/-! ## C4: the validator detects cycles and malformed paths; the merge does not run it -/

theorem alistGet_some_mem_fst {b : Type} :
    ∀ (m : List (String × b)) (x : String) (y : b),
    alistGet m x = some y → x ∈ m.map Prod.fst := by
  intro m
  induction m with
  | nil => intro x y h; rw [alistGet] at h; cases h
  | cons kv rest ih =>
      obtain ⟨k, v⟩ := kv
      intro x y h
      rw [alistGet] at h
      by_cases hk : k = x
      · subst hk
        simp
      · rw [if_neg hk] at h
        simp [ih x y h]

theorem alistGet_some_mem_snd {b : Type} :
    ∀ (m : List (String × b)) (x : String) (y : b),
    alistGet m x = some y → y ∈ m.map Prod.snd := by
  intro m
  induction m with
  | nil => intro x y h; rw [alistGet] at h; cases h
  | cons kv rest ih =>
      obtain ⟨k, v⟩ := kv
      intro x y h
      rw [alistGet] at h
      by_cases hk : k = x
      · rw [if_pos hk] at h
        obtain rfl : v = y := by simpa using h
        simp
      · rw [if_neg hk] at h
        simp [ih x y h]

theorem chainIter_add (m : List (String × String)) :
    ∀ (a : Nat) (p : String) (b : Nat),
    chainIter m (b + a) p = (chainIter m a p).bind (fun q => chainIter m b q) := by
  intro a
  induction a with
  | zero => intro p b; rfl
  | succ a2 ih =>
      intro p b
      rw [← Nat.add_assoc]
      cases halist : alistGet m p with
      | none => simp [chainIter, halist]
      | some q => simp [chainIter, halist, ih]

theorem cycle_step (m : List (String × String)) (x y : String) (n : Nat)
    (hn : n ≠ 0) (hcyc : chainIter m n x = some x) (hstep : alistGet m x = some y) :
    ∃ n2, n2 ≠ 0 ∧ chainIter m n2 y = some y := by
  obtain ⟨n2, rfl⟩ : ∃ n2, n = n2 + 1 := ⟨n - 1, by omega⟩
  rw [show chainIter m (n2 + 1) x =
    (match alistGet m x with
     | some q => chainIter m n2 q
     | none => none) from rfl, hstep] at hcyc
  have hcyc2 : chainIter m n2 y = some x := hcyc
  refine ⟨1 + n2, by omega, ?_⟩
  rw [chainIter_add m n2 y 1, hcyc2]
  show chainIter m 1 x = some y
  simp [chainIter, hstep]

theorem cycle_reach (m : List (String × String)) :
    ∀ (j : Nat) (c v : String), (∃ n, n ≠ 0 ∧ chainIter m n c = some c) →
    chainIter m j c = some v → ∃ nv, nv ≠ 0 ∧ chainIter m nv v = some v := by
  intro j
  induction j with
  | zero =>
      intro c v hc hj
      obtain rfl : c = v := by simpa [chainIter] using hj
      exact hc
  | succ j2 ih =>
      intro c v hc hj
      cases halist : alistGet m c with
      | none =>
          rw [show chainIter m (j2 + 1) c =
            (match alistGet m c with
             | some q => chainIter m j2 q
             | none => none) from rfl, halist] at hj
          exact Option.noConfusion hj
      | some q =>
          rw [show chainIter m (j2 + 1) c =
            (match alistGet m c with
             | some q2 => chainIter m j2 q2
             | none => none) from rfl, halist] at hj
          obtain ⟨n, hn, hcy⟩ := hc
          exact ih q v (cycle_step m c q n hn hcy halist) hj

theorem walkMeasure_decreases (m : List (String × String)) (chain : List String)
    (next : String) (hmem : next ∈ m.map Prod.snd) (hc : next ∉ chain) :
    ((m.map Prod.snd).filter (fun y => !decide (y ∈ chain ++ [next]))).length <
      ((m.map Prod.snd).filter (fun y => !decide (y ∈ chain))).length := by
  have key : ∀ (l : List String), next ∈ l →
      (l.countP (fun y => !decide (y ∈ chain ++ [next])) <
        l.countP (fun y => !decide (y ∈ chain))) := by
    intro l hl
    induction l with
    | nil => cases hl
    | cons a l ih =>
        have mono : l.countP (fun y => !decide (y ∈ chain ++ [next])) ≤
            l.countP (fun y => !decide (y ∈ chain)) := by
          apply List.countP_mono_left
          intro x _ hx
          simp only [Bool.not_eq_true', decide_eq_false_iff_not, List.mem_append,
            List.mem_singleton] at hx ⊢
          exact fun hxc => hx (Or.inl hxc)
        rw [List.countP_cons, List.countP_cons]
        by_cases hax : a = next
        · subst hax
          have h1 : (!decide (a ∈ chain ++ [a])) = false := by simp
          have h2 : (!decide (a ∈ chain)) = true := by simp [hc]
          rw [h1, h2]
          simp only [Bool.false_eq_true, if_false, if_true]
          omega
        · have hl2 : next ∈ l := by
            rcases List.mem_cons.mp hl with hEq | hIn
            · exact absurd hEq.symm hax
            · exact hIn
          have ihl := ih hl2
          by_cases hac : a ∈ chain
          · have h1 : (!decide (a ∈ chain ++ [next])) = false := by simp [hac]
            have h2 : (!decide (a ∈ chain)) = false := by simp [hac]
            rw [h1, h2]
            simpa using ihl
          · have h1 : (!decide (a ∈ chain ++ [next])) = true := by simp [hac, hax]
            have h2 : (!decide (a ∈ chain)) = true := by simp [hac]
            rw [h1, h2]
            simp only [if_true]
            omega
  have hk := key (m.map Prod.snd) hmem
  simpa [List.countP_eq_length_filter] using hk

theorem walkChain_finds_cycle (m : List (String × String)) :
    ∀ (N : Nat) (chain visited : List String) (current : String),
    ((m.map Prod.snd).filter (fun y => !decide (y ∈ chain))).length ≤ N →
    (∃ n, n ≠ 0 ∧ chainIter m n current = some current) →
    (∀ v ∈ visited, ∀ j, chainIter m j current ≠ some v) →
    ∃ msg, walkChain m visited chain current = some msg := by
  intro N
  induction N with
  | zero =>
      intro chain visited current hN hcyc hvis
      obtain ⟨n, hn, hit⟩ := hcyc
      obtain ⟨n2, rfl⟩ : ∃ n2, n = n2 + 1 := ⟨n - 1, by omega⟩
      rw [walkChain]
      split
      · rename_i heq
        rw [show chainIter m (n2 + 1) current =
          (match alistGet m current with
           | some q => chainIter m n2 q
           | none => none) from rfl, heq] at hit
        exact Option.noConfusion hit
      · rename_i next heq
        by_cases hcn : next ∈ chain
        · rw [dif_pos hcn]
          exact ⟨_, rfl⟩
        · exfalso
          have hmem2 : next ∈ m.map Prod.snd := alistGet_some_mem_snd m current next heq
          have hpos : next ∈ (m.map Prod.snd).filter (fun y => !decide (y ∈ chain)) :=
            List.mem_filter.mpr ⟨hmem2, by simp [hcn]⟩
          have := List.length_pos.mpr (List.ne_nil_of_mem hpos)
          omega
  | succ N ih =>
      intro chain visited current hN hcyc hvis
      obtain ⟨n, hn, hit⟩ := hcyc
      obtain ⟨n2, rfl⟩ : ∃ n2, n = n2 + 1 := ⟨n - 1, by omega⟩
      rw [walkChain]
      split
      · rename_i heq
        rw [show chainIter m (n2 + 1) current =
          (match alistGet m current with
           | some q => chainIter m n2 q
           | none => none) from rfl, heq] at hit
        exact Option.noConfusion hit
      · rename_i next heq
        by_cases hcn : next ∈ chain
        · rw [dif_pos hcn]
          exact ⟨_, rfl⟩
        · rw [dif_neg hcn]
          have hnv : next ∉ visited := by
            intro hmemv
            apply hvis next hmemv 1
            rw [show chainIter m 1 current =
              (match alistGet m current with
               | some q => chainIter m 0 q
               | none => none) from rfl, heq]
            rfl
          rw [if_neg hnv]
          have hmem2 : next ∈ m.map Prod.snd := alistGet_some_mem_snd m current next heq
          apply ih (chain ++ [next]) visited next
          · have hdec := walkMeasure_decreases m chain next hmem2 hcn
            omega
          · exact cycle_step m current next (n2 + 1) (by omega) hit heq
          · intro v hv j hj
            apply hvis v hv (j + 1)
            rw [show chainIter m (j + 1) current =
              (match alistGet m current with
               | some q => chainIter m j q
               | none => none) from rfl, heq]
            exact hj

theorem cycleScan_ne_of_errs (m : List (String × String)) :
    ∀ (ks visited errs : List String), errs ≠ [] →
    cycleScan m ks visited errs ≠ [] := by
  intro ks
  induction ks with
  | nil =>
      intro visited errs h
      rw [cycleScan]
      exact h
  | cons k rest ih =>
      intro visited errs h
      rw [show cycleScan m (k :: rest) visited errs =
        cycleScan m rest (visited ++ [k])
          (match walkChain m visited [k] k with
           | some msg => errs ++ [msg]
           | none => errs) from rfl]
      cases hw : walkChain m visited [k] k with
      | some msg => exact ih _ _ (by simp)
      | none => exact ih _ _ h

theorem cycleScan_finds (m : List (String × String)) :
    ∀ (ks visited errs : List String),
    (∃ c, c ∈ ks ∧ ∃ n, n ≠ 0 ∧ chainIter m n c = some c) →
    (∀ v ∈ visited, ¬∃ nv, nv ≠ 0 ∧ chainIter m nv v = some v) →
    cycleScan m ks visited errs ≠ [] := by
  intro ks
  induction ks with
  | nil =>
      intro visited errs hc _
      obtain ⟨c, hc1, _⟩ := hc
      cases hc1
  | cons k rest ih =>
      intro visited errs hc hvisited
      rw [show cycleScan m (k :: rest) visited errs =
        cycleScan m rest (visited ++ [k])
          (match walkChain m visited [k] k with
           | some msg => errs ++ [msg]
           | none => errs) from rfl]
      by_cases hk : ∃ n, n ≠ 0 ∧ chainIter m n k = some k
      · have hwalk : ∃ msg, walkChain m visited [k] k = some msg := by
          apply walkChain_finds_cycle m
            (((m.map Prod.snd).filter (fun y => !decide (y ∈ [k]))).length)
            [k] visited k le_rfl hk
          intro v hv j hj
          exact hvisited v hv (cycle_reach m j k v hk hj)
        obtain ⟨msg, hmsg⟩ := hwalk
        rw [hmsg]
        exact cycleScan_ne_of_errs m rest (visited ++ [k]) (errs ++ [msg]) (by simp)
      · obtain ⟨c, hc1, hc2⟩ := hc
        have hcr : c ∈ rest := by
          rcases List.mem_cons.mp hc1 with rfl | hr
          · exact absurd hc2 hk
          · exact hr
        cases hw : walkChain m visited [k] k with
        | some msg => exact cycleScan_ne_of_errs m rest _ _ (by simp)
        | none =>
            apply ih (visited ++ [k]) errs ⟨c, hcr, hc2⟩
            intro v hv
            rcases List.mem_append.mp hv with h1 | h2
            · exact hvisited v h1
            · obtain rfl : v = k := by simpa using h2
              exact hk

theorem pathFormatErrsGo_len : ∀ (l acc : List String),
    acc.length ≤ (pathFormatErrsGo l acc).length := by
  intro l
  induction l with
  | nil =>
      intro acc
      rw [pathFormatErrsGo]
  | cons p rest ih =>
      intro acc
      rw [pathFormatErrsGo]
      by_cases h1 : p = ""
      · rw [if_pos h1]
        exact le_trans (by simp) (ih _)
      · rw [if_neg h1]
        by_cases h2 : (strStartsWith p (".") || strEndsWith p (".") ||
            strContains p ("..")) = true
        · rw [if_pos h2]
          exact le_trans (by simp) (ih _)
        · rw [if_neg h2]
          exact ih acc

theorem pathFormatErrsGo_ne : ∀ (l acc : List String) (p : String),
    p ∈ l → pathMalformed p = true → pathFormatErrsGo l acc ≠ [] := by
  intro l
  induction l with
  | nil =>
      intro acc p hp
      cases hp
  | cons q rest ih =>
      intro acc p hp hmal
      rw [pathFormatErrsGo]
      rcases List.mem_cons.mp hp with rfl | hrest
      · by_cases h1 : p = ""
        · rw [if_pos h1]
          intro hcontra
          have hlen := pathFormatErrsGo_len rest (acc ++ ["Invalid path format: " ++ p])
          rw [hcontra] at hlen
          simp at hlen
        · rw [if_neg h1]
          have h2 : (strStartsWith p (".") || strEndsWith p (".") ||
              strContains p ("..")) = true := by
            rw [pathMalformed, if_neg h1] at hmal
            exact hmal
          rw [if_pos h2]
          intro hcontra
          have hlen := pathFormatErrsGo_len rest (acc ++ ["Invalid path format: \x27" ++ p ++
            "\x27 (cannot start/end with \x27.\x27 or contain \x27..\x27)"])
          rw [hcontra] at hlen
          simp at hlen
      · by_cases h1 : q = ""
        · rw [if_pos h1]
          exact ih _ p hrest hmal
        · rw [if_neg h1]
          by_cases h2 : (strStartsWith q (".") || strEndsWith q (".") ||
              strContains q ("..")) = true
          · rw [if_pos h2]
            exact ih _ p hrest hmal
          · rw [if_neg h2]
            exact ih _ p hrest hmal

/-- C4 (amended): `merge_configurations` itself never validates the rename
map and completes normally on a cyclic one; the fail-fast behaviour belongs
to `validate_migration_map`, which the pipeline runs beforehand. For every
map whose rename chains contain a cycle (some path returns to itself after a
positive number of rename steps) or which mentions a malformed path (empty,
leading or trailing dot, or doubled dot), `validate_migration_map` reports at
least one error. -/
theorem C4_validate_amended (m : List (String × String))
    (h : (∃ k n, n ≠ 0 ∧ chainIter m n k = some k) ∨
      (∃ p, p ∈ m.map Prod.fst ++ m.map Prod.snd ∧ pathMalformed p = true)) :
    validateMigrationMap m ≠ [] := by
  intro hnil
  rw [validateMigrationMap, List.append_eq_nil] at hnil
  obtain ⟨h1, h2⟩ := hnil
  rcases h with hcyc | hmal
  · obtain ⟨k, n, hn, hit⟩ := hcyc
    have hkmem : k ∈ m.map Prod.fst := by
      obtain ⟨n2, rfl⟩ : ∃ n2, n = n2 + 1 := ⟨n - 1, by omega⟩
      cases halist : alistGet m k with
      | none =>
          rw [show chainIter m (n2 + 1) k =
            (match alistGet m k with
             | some q => chainIter m n2 q
             | none => none) from rfl, halist] at hit
          exact Option.noConfusion hit
      | some q => exact alistGet_some_mem_fst m k q halist
    exact cycleScan_finds m (m.map Prod.fst) [] [] ⟨k, hkmem, n, hn, hit⟩
      (by intro v hv; cases hv) h1
  · obtain ⟨p, hp, hmal2⟩ := hmal
    exact pathFormatErrsGo_ne (m.map Prod.fst ++ m.map Prod.snd) [] p hp hmal2 h2

/-- C4 witness: the validator flags the two-cycle `a -> b -> a`. -/
theorem C4_witness : validateMigrationMap [("a", "b"), ("b", "a")] ≠ [] :=
  C4_validate_amended [("a", "b"), ("b", "a")]
    (Or.inl ⟨"a", 2, by decide, by decide⟩)



/-! ## C8: no parent/child duplication in the extracted delta set -/

theorem mem_keys_alistInsert_or {b : Type} (d : List (String × b)) (k : String) (v : b)
    (p : String) (h : p ∈ dictKeys (alistInsert d k v)) : p ∈ dictKeys d ∨ p = k := by
  rw [dictKeys_alistInsert] at h
  split at h
  · exact Or.inl h
  · rcases List.mem_append.mp h with h1 | h1
    · exact Or.inl h1
    · exact Or.inr (by simpa using h1)

theorem mem_dfEntries : ∀ (g : List (String × Val)) (k : String) (v : Val),
    dfEntries g = true → (k, v) ∈ g →
    k ≠ "" ∧ '.' ∉ k.data ∧ dotFreeVal v = true := by
  intro g
  induction g with
  | nil => intro k v _ hm; cases hm
  | cons kv rest ih =>
      obtain ⟨k0, v0⟩ := kv
      intro k v hdf hm
      rw [dfEntries] at hdf
      simp only [Bool.and_eq_true, decide_eq_true_eq] at hdf
      obtain ⟨⟨⟨h1, h2⟩, h3⟩, h4⟩ := hdf
      rcases List.mem_cons.mp hm with heq | hr
      · injection heq with hk hv
        subst hk
        subst hv
        exact ⟨h1, h2, h3⟩
      · exact ih k v h4 hr

theorem mem_wfEntries : ∀ (g : List (String × Val)) (k : String) (v : Val),
    wfEntries g = true → (k, v) ∈ g → valWF v = true := by
  intro g
  induction g with
  | nil => intro k v _ hm; cases hm
  | cons kv rest ih =>
      obtain ⟨k0, v0⟩ := kv
      intro k v hwf hm
      rw [wfEntries] at hwf
      simp only [Bool.and_eq_true] at hwf
      rcases List.mem_cons.mp hm with heq | hr
      · injection heq with hk hv
        subst hv
        exact hwf.1
      · exact ih k v hwf.2 hr

theorem mem_nodup_unique {b : Type} : ∀ (g : List (String × b)) (k : String) (v v2 : b),
    (dictKeys g).Nodup → (k, v) ∈ g → (k, v2) ∈ g → v = v2 := by
  intro g
  induction g with
  | nil => intro k v v2 _ hm; cases hm
  | cons kv rest ih =>
      obtain ⟨k0, v0⟩ := kv
      intro k v v2 hnd hm1 hm2
      simp only [dictKeys, List.map_cons, List.nodup_cons] at hnd
      rcases List.mem_cons.mp hm1 with h1 | h1 <;> rcases List.mem_cons.mp hm2 with h2 | h2
      · injection h1 with ha hb
        injection h2 with hc hd
        rw [hb, hd]
      · injection h1 with ha hb
        exfalso
        apply hnd.1
        rw [← ha]
        exact List.mem_map_of_mem Prod.fst h2
      · injection h2 with ha hb
        exfalso
        apply hnd.1
        rw [← ha]
        exact List.mem_map_of_mem Prod.fst h1
      · exact ih k v v2 hnd.2 h1 h2

theorem dot_split_list : ∀ (xs ys us vs : List Char), '.' ∉ xs → '.' ∉ ys →
    xs ++ '.' :: us = ys ++ '.' :: vs → xs = ys ∧ us = vs := by
  intro xs
  induction xs with
  | nil =>
      intro ys us vs _ hy h
      cases ys with
      | nil => simpa using h
      | cons y ys2 =>
          simp only [List.nil_append, List.cons_append, List.cons.injEq] at h
          exfalso
          apply hy
          rw [h.1]
          exact List.mem_cons_self y ys2
  | cons x xs2 ih =>
      intro ys us vs hx hy h
      cases ys with
      | nil =>
          simp only [List.cons_append, List.nil_append, List.cons.injEq] at h
          exfalso
          apply hx
          rw [← h.1]
          exact List.mem_cons_self x xs2
      | cons y ys2 =>
          simp only [List.cons_append, List.cons.injEq] at h
          obtain ⟨rfl, h2⟩ := h
          have hx2 : '.' ∉ xs2 := fun hc => hx (List.mem_cons_of_mem x hc)
          have hy2 : '.' ∉ ys2 := fun hc => hy (List.mem_cons_of_mem x hc)
          obtain ⟨ha, hb⟩ := ih ys2 us vs hx2 hy2 h2
          exact ⟨by rw [ha], hb⟩

theorem dot_split_unique (a b c d : String) (ha : '.' ∉ a.data) (hb : '.' ∉ b.data)
    (h : a ++ "." ++ c = b ++ "." ++ d) : a = b ∧ c = d := by
  have h2 : a.data ++ '.' :: c.data = b.data ++ '.' :: d.data := by
    have h3 := congrArg String.data h
    simpa [String.data_append, List.append_assoc] using h3
  obtain ⟨h3, h4⟩ := dot_split_list a.data b.data c.data d.data ha hb h2
  exact ⟨congrArg String.mk h3, congrArg String.mk h4⟩

theorem dot_mem_middle (a b : String) : '.' ∈ (a ++ "." ++ b).data := by
  simp [String.data_append]

theorem joinPath_ne (pre q : String) (h : ¬pre = "") : joinPath pre q = pre ++ "." ++ q := by
  rw [joinPath, if_neg h]

theorem joinPath_ne_empty (pre k : String) (hk : ¬k = "") : ¬joinPath pre k = "" := by
  rw [joinPath]
  split
  · exact hk
  · intro hc
    have hd := congrArg String.data hc
    simp [String.data_append] at hd

theorem joinPath_assoc (pre k q : String) :
    joinPath pre k ++ "." ++ q = joinPath pre (k ++ "." ++ q) := by
  by_cases h : pre = ""
  · rw [joinPath, joinPath, if_pos h, if_pos h]
  · rw [joinPath, joinPath, if_neg h, if_neg h]
    simp [String.append_assoc]

theorem relPath_cons (k2 : String) (gv2 : Val) (g t : Dict) (q : String)
    (h : RelPath g t q) : RelPath ((k2, gv2) :: g) t q := by
  cases h with
  | capture v hm hc => exact RelPath.capture v (List.mem_cons_of_mem _ hm) hc
  | deeper gsub tsub hm ht hp => exact RelPath.deeper gsub tsub (List.mem_cons_of_mem _ hm) ht hp

mutual
theorem extractEntries_keys_rel : ∀ (gs : List (String × Val)) (t acc : Dict) (pre : String)
    (p : String), dfEntries gs = true → p ∈ dictKeys (extractEntries gs t acc pre) →
    p ∈ dictKeys acc ∨ ∃ q, RelPath gs t q ∧ p = joinPath pre q
  | [], t, acc, pre, p, _, h => by
      rw [extractEntries] at h
      exact Or.inl h
  | (k, gv) :: rest, t, acc, pre, p, hdf, h => by
      rw [extractEntries] at h
      rw [dfEntries] at hdf
      simp only [Bool.and_eq_true, decide_eq_true_eq] at hdf
      obtain ⟨⟨⟨hk1, hk2⟩, hk3⟩, hk4⟩ := hdf
      rcases extractEntries_keys_rel rest t _ pre p hk4 h with hacc | ⟨q, hq, hpq⟩
      · rcases extractOne_keys_rel k gv t acc (joinPath pre k) p hk3
            (joinPath_ne_empty pre k hk1) hacc with h1 | h2 | h3
        · exact Or.inl h1
        · obtain ⟨hp1, hc⟩ := h2
          exact Or.inr ⟨k, RelPath.capture gv (List.mem_cons_self _ _) hc, hp1⟩
        · obtain ⟨gsub, tsub, q2, hgv, ht, hq2, hp2⟩ := h3
          subst hgv
          refine Or.inr ⟨k ++ "." ++ q2,
            RelPath.deeper gsub tsub (List.mem_cons_self _ _) ht hq2, ?_⟩
          rw [hp2, joinPath_assoc]
      · exact Or.inr ⟨q, relPath_cons k gv rest t q hq, hpq⟩

theorem extractOne_keys_rel : ∀ (k : String) (gv : Val) (t acc : Dict) (cur p : String),
    dotFreeVal gv = true → ¬cur = "" → p ∈ dictKeys (extractOne k gv t acc cur) →
    p ∈ dictKeys acc ∨
    (p = cur ∧ (alistGet t k = none ∨ ∃ tv, alistGet t k = some tv ∧
      (∀ gsub tsub, gv = Val.dict gsub → tv = Val.dict tsub → False) ∧
      pyEq gv tv = false)) ∨
    (∃ gsub tsub q, gv = Val.dict gsub ∧ alistGet t k = some (Val.dict tsub) ∧
      RelPath gsub tsub q ∧ p = cur ++ "." ++ q)
  | k, .dict gsub, t, acc, cur, p, hdfv, hcur, h => by
      have he0 : extractOne k (Val.dict gsub) t acc cur = (match alistGet t k with
        | none => alistInsert acc cur (Val.dict gsub)
        | some (Val.dict tsub) => extractEntries gsub tsub acc cur
        | some tv => if pyEq (Val.dict gsub) tv = true then acc
                     else alistInsert acc cur (Val.dict gsub)) := rfl
      cases halist : alistGet t k with
      | none =>
          rw [he0, halist] at h
          rcases mem_keys_alistInsert_or acc cur (Val.dict gsub) p h with h1 | h1
          · exact Or.inl h1
          · exact Or.inr (Or.inl ⟨h1, Or.inl rfl⟩)
      | some tv =>
          cases tv with
          | dict tsub =>
              rw [he0, halist] at h
              have hdfsub : dfEntries gsub = true := hdfv
              rcases extractEntries_keys_rel gsub tsub acc cur p hdfsub h with h1 | ⟨q, hq, hpq⟩
              · exact Or.inl h1
              · refine Or.inr (Or.inr ⟨gsub, tsub, q, rfl, rfl, hq, ?_⟩)
                rw [hpq, joinPath_ne cur q hcur]
          | null =>
              rw [he0, halist] at h
              have h3 : p ∈ dictKeys (alistInsert acc cur (Val.dict gsub)) := h
              rcases mem_keys_alistInsert_or acc cur (Val.dict gsub) p h3 with h4 | h4
              · exact Or.inl h4
              · refine Or.inr (Or.inl ⟨h4, Or.inr ⟨Val.null, rfl, ?_, rfl⟩⟩)
                intro gsub2 tsub2 hg ht
                exact Val.noConfusion ht
          | bool b2 =>
              rw [he0, halist] at h
              have h3 : p ∈ dictKeys (alistInsert acc cur (Val.dict gsub)) := h
              rcases mem_keys_alistInsert_or acc cur (Val.dict gsub) p h3 with h4 | h4
              · exact Or.inl h4
              · refine Or.inr (Or.inl ⟨h4, Or.inr ⟨Val.bool b2, rfl, ?_, rfl⟩⟩)
                intro gsub2 tsub2 hg ht
                exact Val.noConfusion ht
          | int n2 =>
              rw [he0, halist] at h
              have h3 : p ∈ dictKeys (alistInsert acc cur (Val.dict gsub)) := h
              rcases mem_keys_alistInsert_or acc cur (Val.dict gsub) p h3 with h4 | h4
              · exact Or.inl h4
              · refine Or.inr (Or.inl ⟨h4, Or.inr ⟨Val.int n2, rfl, ?_, rfl⟩⟩)
                intro gsub2 tsub2 hg ht
                exact Val.noConfusion ht
          | str s2 =>
              rw [he0, halist] at h
              have h3 : p ∈ dictKeys (alistInsert acc cur (Val.dict gsub)) := h
              rcases mem_keys_alistInsert_or acc cur (Val.dict gsub) p h3 with h4 | h4
              · exact Or.inl h4
              · refine Or.inr (Or.inl ⟨h4, Or.inr ⟨Val.str s2, rfl, ?_, rfl⟩⟩)
                intro gsub2 tsub2 hg ht
                exact Val.noConfusion ht
          | list xs2 =>
              rw [he0, halist] at h
              have h3 : p ∈ dictKeys (alistInsert acc cur (Val.dict gsub)) := h
              rcases mem_keys_alistInsert_or acc cur (Val.dict gsub) p h3 with h4 | h4
              · exact Or.inl h4
              · refine Or.inr (Or.inl ⟨h4, Or.inr ⟨Val.list xs2, rfl, ?_, rfl⟩⟩)
                intro gsub2 tsub2 hg ht
                exact Val.noConfusion ht
  | k, Val.null, t, acc, cur, p, hdfv, hcur, h => by
      have he0 : extractOne k (Val.null) t acc cur = (match alistGet t k with
        | none => alistInsert acc cur (Val.null)
        | some tv => if pyEq (Val.null) tv = true then acc
                     else alistInsert acc cur (Val.null)) := rfl
      cases halist : alistGet t k with
      | none =>
          rw [he0, halist] at h
          rcases mem_keys_alistInsert_or acc cur (Val.null) p h with h1 | h1
          · exact Or.inl h1
          · exact Or.inr (Or.inl ⟨h1, Or.inl rfl⟩)
      | some tv =>
          rw [he0, halist] at h
          have h3 : p ∈ dictKeys (if pyEq (Val.null) tv = true then acc
            else alistInsert acc cur (Val.null)) := h
          by_cases hpe : pyEq (Val.null) tv = true
          · rw [if_pos hpe] at h3
            exact Or.inl h3
          · rw [if_neg hpe] at h3
            rcases mem_keys_alistInsert_or acc cur (Val.null) p h3 with h4 | h4
            · exact Or.inl h4
            · refine Or.inr (Or.inl ⟨h4, Or.inr ⟨tv, rfl, ?_, by simpa using hpe⟩⟩)
              intro gsub2 tsub2 hg ht
              exact Val.noConfusion hg
  | k, Val.bool b0, t, acc, cur, p, hdfv, hcur, h => by
      have he0 : extractOne k (Val.bool b0) t acc cur = (match alistGet t k with
        | none => alistInsert acc cur (Val.bool b0)
        | some tv => if pyEq (Val.bool b0) tv = true then acc
                     else alistInsert acc cur (Val.bool b0)) := rfl
      cases halist : alistGet t k with
      | none =>
          rw [he0, halist] at h
          rcases mem_keys_alistInsert_or acc cur (Val.bool b0) p h with h1 | h1
          · exact Or.inl h1
          · exact Or.inr (Or.inl ⟨h1, Or.inl rfl⟩)
      | some tv =>
          rw [he0, halist] at h
          have h3 : p ∈ dictKeys (if pyEq (Val.bool b0) tv = true then acc
            else alistInsert acc cur (Val.bool b0)) := h
          by_cases hpe : pyEq (Val.bool b0) tv = true
          · rw [if_pos hpe] at h3
            exact Or.inl h3
          · rw [if_neg hpe] at h3
            rcases mem_keys_alistInsert_or acc cur (Val.bool b0) p h3 with h4 | h4
            · exact Or.inl h4
            · refine Or.inr (Or.inl ⟨h4, Or.inr ⟨tv, rfl, ?_, by simpa using hpe⟩⟩)
              intro gsub2 tsub2 hg ht
              exact Val.noConfusion hg
  | k, Val.int n0, t, acc, cur, p, hdfv, hcur, h => by
      have he0 : extractOne k (Val.int n0) t acc cur = (match alistGet t k with
        | none => alistInsert acc cur (Val.int n0)
        | some tv => if pyEq (Val.int n0) tv = true then acc
                     else alistInsert acc cur (Val.int n0)) := rfl
      cases halist : alistGet t k with
      | none =>
          rw [he0, halist] at h
          rcases mem_keys_alistInsert_or acc cur (Val.int n0) p h with h1 | h1
          · exact Or.inl h1
          · exact Or.inr (Or.inl ⟨h1, Or.inl rfl⟩)
      | some tv =>
          rw [he0, halist] at h
          have h3 : p ∈ dictKeys (if pyEq (Val.int n0) tv = true then acc
            else alistInsert acc cur (Val.int n0)) := h
          by_cases hpe : pyEq (Val.int n0) tv = true
          · rw [if_pos hpe] at h3
            exact Or.inl h3
          · rw [if_neg hpe] at h3
            rcases mem_keys_alistInsert_or acc cur (Val.int n0) p h3 with h4 | h4
            · exact Or.inl h4
            · refine Or.inr (Or.inl ⟨h4, Or.inr ⟨tv, rfl, ?_, by simpa using hpe⟩⟩)
              intro gsub2 tsub2 hg ht
              exact Val.noConfusion hg
  | k, Val.str s0, t, acc, cur, p, hdfv, hcur, h => by
      have he0 : extractOne k (Val.str s0) t acc cur = (match alistGet t k with
        | none => alistInsert acc cur (Val.str s0)
        | some tv => if pyEq (Val.str s0) tv = true then acc
                     else alistInsert acc cur (Val.str s0)) := rfl
      cases halist : alistGet t k with
      | none =>
          rw [he0, halist] at h
          rcases mem_keys_alistInsert_or acc cur (Val.str s0) p h with h1 | h1
          · exact Or.inl h1
          · exact Or.inr (Or.inl ⟨h1, Or.inl rfl⟩)
      | some tv =>
          rw [he0, halist] at h
          have h3 : p ∈ dictKeys (if pyEq (Val.str s0) tv = true then acc
            else alistInsert acc cur (Val.str s0)) := h
          by_cases hpe : pyEq (Val.str s0) tv = true
          · rw [if_pos hpe] at h3
            exact Or.inl h3
          · rw [if_neg hpe] at h3
            rcases mem_keys_alistInsert_or acc cur (Val.str s0) p h3 with h4 | h4
            · exact Or.inl h4
            · refine Or.inr (Or.inl ⟨h4, Or.inr ⟨tv, rfl, ?_, by simpa using hpe⟩⟩)
              intro gsub2 tsub2 hg ht
              exact Val.noConfusion hg
  | k, Val.list xs0, t, acc, cur, p, hdfv, hcur, h => by
      have he0 : extractOne k (Val.list xs0) t acc cur = (match alistGet t k with
        | none => alistInsert acc cur (Val.list xs0)
        | some tv => if pyEq (Val.list xs0) tv = true then acc
                     else alistInsert acc cur (Val.list xs0)) := rfl
      cases halist : alistGet t k with
      | none =>
          rw [he0, halist] at h
          rcases mem_keys_alistInsert_or acc cur (Val.list xs0) p h with h1 | h1
          · exact Or.inl h1
          · exact Or.inr (Or.inl ⟨h1, Or.inl rfl⟩)
      | some tv =>
          rw [he0, halist] at h
          have h3 : p ∈ dictKeys (if pyEq (Val.list xs0) tv = true then acc
            else alistInsert acc cur (Val.list xs0)) := h
          by_cases hpe : pyEq (Val.list xs0) tv = true
          · rw [if_pos hpe] at h3
            exact Or.inl h3
          · rw [if_neg hpe] at h3
            rcases mem_keys_alistInsert_or acc cur (Val.list xs0) p h3 with h4 | h4
            · exact Or.inl h4
            · refine Or.inr (Or.inl ⟨h4, Or.inr ⟨tv, rfl, ?_, by simpa using hpe⟩⟩)
              intro gsub2 tsub2 hg ht
              exact Val.noConfusion hg
end

theorem relPath_no_descendant : ∀ (g t : Dict) (P : String), RelPath g t P →
    ∀ (s : String), dfEntries g = true → valWF (Val.dict g) = true →
    RelPath g t (P ++ "." ++ s) → False := by
  intro g t P hP
  induction hP with
  | @capture g2 t2 k v hm hc =>
      intro s hdf hwf hPs
      generalize hr : k ++ "." ++ s = r at hPs
      cases hPs with
      | @capture _ _ k2 v2 hm2 hc2 =>
          subst hr
          obtain ⟨_, hdot, _⟩ := mem_dfEntries g2 (k ++ "." ++ s) v2 hdf hm2
          exact hdot (dot_mem_middle k s)
      | @deeper _ _ k2 p2 gsub2 tsub2 hm2 ht2 hp2 =>
          obtain ⟨hk0, hdotk, _⟩ := mem_dfEntries g2 k v hdf hm
          obtain ⟨hk20, hdotk2, _⟩ := mem_dfEntries g2 k2 (Val.dict gsub2) hdf hm2
          obtain ⟨hkk, hsp⟩ := dot_split_unique k k2 s p2 hdotk hdotk2 hr
          subst hkk
          have hwf2 : (dictKeys g2).Nodup ∧ wfEntries g2 = true := by
            rw [valWF] at hwf
            simpa [Bool.and_eq_true, decide_eq_true_eq] using hwf
          have hv : v = Val.dict gsub2 := mem_nodup_unique g2 k v (Val.dict gsub2) hwf2.1 hm hm2
          rcases hc with hnone | ⟨tv, htv, hnb, hpe⟩
          · rw [hnone] at ht2
            exact Option.noConfusion ht2
          · rw [htv] at ht2
            injection ht2 with ht3
            exact hnb gsub2 tsub2 hv ht3
  | @deeper g2 t2 k p gsub tsub hm ht hp ih =>
      intro s hdf hwf hPs
      have hassoc : k ++ "." ++ p ++ "." ++ s = k ++ "." ++ (p ++ "." ++ s) := by
        simp [String.append_assoc]
      rw [hassoc] at hPs
      generalize hr : k ++ "." ++ (p ++ "." ++ s) = r at hPs
      cases hPs with
      | @capture _ _ k2 v2 hm2 hc2 =>
          subst hr
          obtain ⟨_, hdot, _⟩ := mem_dfEntries g2 (k ++ "." ++ (p ++ "." ++ s)) v2 hdf hm2
          exact hdot (dot_mem_middle k (p ++ "." ++ s))
      | @deeper _ _ k2 p2 gsub2 tsub2 hm2 ht2 hp2 =>
          obtain ⟨hk0, hdotk, hdfv⟩ := mem_dfEntries g2 k (Val.dict gsub) hdf hm
          obtain ⟨_, hdotk2, _⟩ := mem_dfEntries g2 k2 (Val.dict gsub2) hdf hm2
          obtain ⟨hkk, hsp⟩ := dot_split_unique k k2 (p ++ "." ++ s) p2 hdotk hdotk2 hr
          subst hkk
          have hwf2 : (dictKeys g2).Nodup ∧ wfEntries g2 = true := by
            rw [valWF] at hwf
            simpa [Bool.and_eq_true, decide_eq_true_eq] using hwf
          have hv : Val.dict gsub = Val.dict gsub2 :=
            mem_nodup_unique g2 k _ _ hwf2.1 hm hm2
          injection hv with hv2
          subst hv2
          rw [ht] at ht2
          injection ht2 with ht3
          injection ht3 with ht4
          subst ht4
          subst hsp
          have hdfsub : dfEntries gsub = true := hdfv
          have hwfsub : valWF (Val.dict gsub) = true :=
            mem_wfEntries g2 k (Val.dict gsub) hwf2.2 hm
          exact ih s hdfsub hwfsub hp2

/-- C8 (amended): for every golden config whose mapping keys are nonempty
and dot-free at every depth and whose dicts carry duplicate-free keys, and
for every old template, the delta set returned by `extract_custom_data`
never contains both a path `P` and a strict descendant `P.s` of it. (The
unrestricted claim fails: a literal dotted key such as `"a.b"` beside the
key `"a"` makes the extraction emit both `"a"` and `"a.b"`.) -/
theorem C8_no_descendant_amended (g t : Dict) (P s : String)
    (hdf : dfEntries g = true) (hwf : valWF (Val.dict g) = true)
    (hP : P ∈ dictKeys (extractCustomData g t)) :
    (P ++ "." ++ s) ∉ dictKeys (extractCustomData g t) := by
  intro hPs
  rcases extractEntries_keys_rel g t [] ("") P hdf hP with h1 | ⟨q1, hq1, hpq1⟩
  · simp [dictKeys] at h1
  rcases extractEntries_keys_rel g t [] ("") (P ++ "." ++ s) hdf hPs with h2 | ⟨q2, hq2, hpq2⟩
  · simp [dictKeys] at h2
  have he1 : P = q1 := hpq1
  have he2 : P ++ "." ++ s = q2 := hpq2
  subst he1
  subst he2
  exact relPath_no_descendant g t P hq1 s hdf hwf hq2

/-- C8 witness: a golden config with a fully-custom subtree under `a`; the
delta set holds `a` and therefore not its descendant `a.b`. -/
theorem C8_witness :
    ("a" ++ "." ++ "b") ∉ dictKeys (extractCustomData [("a", Val.dict [("b", Val.int 1)])] []) :=
  C8_no_descendant_amended [("a", Val.dict [("b", Val.int 1)])] [] ("a") ("b")
    (by decide) (by decide) (by decide)



/-! ## C2: idempotence of the merge on duplicate-free, dot-free,
annotation-free trees -/

theorem exceptBind_ok {e a b : Type} (x : a) (f : a → Except e b) :
    (Except.ok x : Except e a) >>= f = f x := rfl

theorem alistGet_of_mem_nodup {b : Type} : ∀ (d : List (String × b)) (k : String) (v : b),
    (dictKeys d).Nodup → (k, v) ∈ d → alistGet d k = some v := by
  intro d
  induction d with
  | nil => intro k v _ hm; cases hm
  | cons kv rest ih =>
      obtain ⟨k0, v0⟩ := kv
      intro k v hnd hm
      simp only [dictKeys, List.map_cons, List.nodup_cons] at hnd
      rw [alistGet]
      rcases List.mem_cons.mp hm with h1 | h1
      · injection h1 with ha hb
        subst ha
        rw [if_pos rfl, hb]
      · have hne : ¬k0 = k := by
          intro he
          apply hnd.1
          rw [he]
          exact List.mem_map_of_mem Prod.fst h1
        rw [if_neg hne]
        exact ih k v hnd.2 h1

mutual
theorem pyEq_refl : ∀ (v : Val), valWF v = true → pyEq v v = true
  | .null, _ => rfl
  | .bool b0, _ => by
      show (b0 == b0) = true
      simp
  | .int n0, _ => by
      show ((n0 : Int) == n0) = true
      simp
  | .str s0, _ => by
      show (s0 == s0) = true
      simp
  | .list xs0, h => by
      have h2 : wfItems xs0 = true := h
      show pyEqList xs0 xs0 = true
      exact pyEqList_refl xs0 h2
  | .dict d, h => by
      have h2 : (decide ((dictKeys d).Nodup) && wfEntries d) = true := h
      simp only [Bool.and_eq_true, decide_eq_true_eq] at h2
      show ((d.length == d.length) && pyEqSub d d) = true
      rw [Bool.and_eq_true]
      constructor
      · simp
      · exact pyEqSub_sub d d
          (fun kv hm => alistGet_of_mem_nodup d kv.1 kv.2 h2.1 hm) h2.2

theorem pyEqList_refl : ∀ (xs : List Val), wfItems xs = true → pyEqList xs xs = true
  | [], _ => rfl
  | x :: rest, h => by
      have h2 : (valWF x && wfItems rest) = true := h
      rw [Bool.and_eq_true] at h2
      show (pyEq x x && pyEqList rest rest) = true
      rw [Bool.and_eq_true]
      exact ⟨pyEq_refl x h2.1, pyEqList_refl rest h2.2⟩

theorem pyEqSub_sub : ∀ (sub d : List (String × Val)),
    (∀ kv ∈ sub, alistGet d kv.1 = some kv.2) → wfEntries sub = true →
    pyEqSub sub d = true
  | [], _, _, _ => rfl
  | (k, v) :: rest, d, hget, hwf => by
      have h2 : (valWF v && wfEntries rest) = true := hwf
      rw [Bool.and_eq_true] at h2
      show ((match alistGet d k with
             | some w => pyEq v w
             | none => false) && pyEqSub rest d) = true
      rw [hget (k, v) (List.mem_cons_self _ _), Bool.and_eq_true]
      constructor
      · exact pyEq_refl v h2.1
      · exact pyEqSub_sub rest d (fun kv hm => hget kv (List.mem_cons_of_mem _ hm)) h2.2
end

mutual
theorem extractEntries_self_nil : ∀ (gs : List (String × Val)) (t acc : Dict) (pre : String),
    (∀ kv ∈ gs, alistGet t kv.1 = some kv.2) → wfEntries gs = true →
    extractEntries gs t acc pre = acc
  | [], t, acc, pre, _, _ => by rw [extractEntries]
  | (k, gv) :: rest, t, acc, pre, hget, hwf => by
      rw [extractEntries]
      have h2 : (valWF gv && wfEntries rest) = true := hwf
      rw [Bool.and_eq_true] at h2
      rw [extractOne_self_nil k gv t acc (joinPath pre k)
        (hget (k, gv) (List.mem_cons_self _ _)) h2.1]
      exact extractEntries_self_nil rest t acc pre
        (fun kv hm => hget kv (List.mem_cons_of_mem _ hm)) h2.2

theorem extractOne_self_nil : ∀ (k : String) (gv : Val) (t acc : Dict) (cur : String),
    alistGet t k = some gv → valWF gv = true → extractOne k gv t acc cur = acc
  | k, .dict gsub, t, acc, cur, hget, hwfv => by
      have he0 : extractOne k (Val.dict gsub) t acc cur = (match alistGet t k with
        | none => alistInsert acc cur (Val.dict gsub)
        | some (Val.dict tsub) => extractEntries gsub tsub acc cur
        | some tv => if pyEq (Val.dict gsub) tv = true then acc
                     else alistInsert acc cur (Val.dict gsub)) := rfl
      rw [he0, hget]
      show extractEntries gsub gsub acc cur = acc
      have h2 : (decide ((dictKeys gsub).Nodup) && wfEntries gsub) = true := hwfv
      simp only [Bool.and_eq_true, decide_eq_true_eq] at h2
      exact extractEntries_self_nil gsub gsub acc cur
        (fun kv hm => alistGet_of_mem_nodup gsub kv.1 kv.2 h2.1 hm) h2.2
  | k, Val.null, t, acc, cur, hget, hwfv => by
      have he0 : extractOne k (Val.null) t acc cur = (match alistGet t k with
        | none => alistInsert acc cur (Val.null)
        | some tv => if pyEq (Val.null) tv = true then acc
                     else alistInsert acc cur (Val.null)) := rfl
      rw [he0, hget]
      show (if pyEq (Val.null) (Val.null) = true then acc
        else alistInsert acc cur (Val.null)) = acc
      rw [if_pos (pyEq_refl (Val.null) hwfv)]
  | k, Val.bool b0, t, acc, cur, hget, hwfv => by
      have he0 : extractOne k (Val.bool b0) t acc cur = (match alistGet t k with
        | none => alistInsert acc cur (Val.bool b0)
        | some tv => if pyEq (Val.bool b0) tv = true then acc
                     else alistInsert acc cur (Val.bool b0)) := rfl
      rw [he0, hget]
      show (if pyEq (Val.bool b0) (Val.bool b0) = true then acc
        else alistInsert acc cur (Val.bool b0)) = acc
      rw [if_pos (pyEq_refl (Val.bool b0) hwfv)]
  | k, Val.int n0, t, acc, cur, hget, hwfv => by
      have he0 : extractOne k (Val.int n0) t acc cur = (match alistGet t k with
        | none => alistInsert acc cur (Val.int n0)
        | some tv => if pyEq (Val.int n0) tv = true then acc
                     else alistInsert acc cur (Val.int n0)) := rfl
      rw [he0, hget]
      show (if pyEq (Val.int n0) (Val.int n0) = true then acc
        else alistInsert acc cur (Val.int n0)) = acc
      rw [if_pos (pyEq_refl (Val.int n0) hwfv)]
  | k, Val.str s0, t, acc, cur, hget, hwfv => by
      have he0 : extractOne k (Val.str s0) t acc cur = (match alistGet t k with
        | none => alistInsert acc cur (Val.str s0)
        | some tv => if pyEq (Val.str s0) tv = true then acc
                     else alistInsert acc cur (Val.str s0)) := rfl
      rw [he0, hget]
      show (if pyEq (Val.str s0) (Val.str s0) = true then acc
        else alistInsert acc cur (Val.str s0)) = acc
      rw [if_pos (pyEq_refl (Val.str s0) hwfv)]
  | k, Val.list xs0, t, acc, cur, hget, hwfv => by
      have he0 : extractOne k (Val.list xs0) t acc cur = (match alistGet t k with
        | none => alistInsert acc cur (Val.list xs0)
        | some tv => if pyEq (Val.list xs0) tv = true then acc
                     else alistInsert acc cur (Val.list xs0)) := rfl
      rw [he0, hget]
      show (if pyEq (Val.list xs0) (Val.list xs0) = true then acc
        else alistInsert acc cur (Val.list xs0)) = acc
      rw [if_pos (pyEq_refl (Val.list xs0) hwfv)]
end

theorem treePath_cons (k : String) (v : Val) (rest : Dict) (q : String)
    (h : TreePath rest q) : TreePath ((k, v) :: rest) q := by
  cases h with
  | here w hm => exact TreePath.here w (List.mem_cons_of_mem _ hm)
  | deeper sub hm hne hp => exact TreePath.deeper sub (List.mem_cons_of_mem _ hm) hne hp

mutual
theorem getAllPathsEntries_tree : ∀ (d : List (String × Val)) (pre p : String),
    dfEntries d = true → p ∈ getAllPathsEntries d pre →
    ∃ q, TreePath d q ∧ p = joinPath pre q
  | [], pre, p, _, h => by
      rw [getAllPathsEntries] at h
      cases h
  | (k, v) :: rest, pre, p, hdf, h => by
      replace h : p ∈ (joinPath pre k :: getAllPathsChild v (joinPath pre k)) ++
          getAllPathsEntries rest pre := h
      rw [dfEntries] at hdf
      simp only [Bool.and_eq_true, decide_eq_true_eq] at hdf
      obtain ⟨⟨⟨hk1, hk2⟩, hk3⟩, hk4⟩ := hdf
      rcases List.mem_append.mp h with h1 | h1
      · rcases List.mem_cons.mp h1 with h2 | h2
        · exact ⟨k, TreePath.here v (List.mem_cons_self _ _), h2⟩
        · obtain ⟨sub, q, hv, hne, hq, hpq⟩ :=
            getAllPathsChild_tree v (joinPath pre k) p hk3 h2
          subst hv
          refine ⟨k ++ "." ++ q, TreePath.deeper sub (List.mem_cons_self _ _) hne hq, ?_⟩
          rw [hpq, joinPath_ne (joinPath pre k) q (joinPath_ne_empty pre k hk1), joinPath_assoc]
      · obtain ⟨q, hq, hpq⟩ := getAllPathsEntries_tree rest pre p hk4 h1
        exact ⟨q, treePath_cons k v rest q hq, hpq⟩

theorem getAllPathsChild_tree : ∀ (v : Val) (cur p : String), dotFreeVal v = true →
    p ∈ getAllPathsChild v cur →
    ∃ sub q, v = Val.dict sub ∧ sub ≠ [] ∧ TreePath sub q ∧ p = joinPath cur q
  | .dict sub, cur, p, hdfv, h => by
      replace h : p ∈ (if sub.isEmpty then ([] : List String)
        else getAllPathsEntries sub cur) := h
      by_cases hse : sub.isEmpty = true
      · rw [if_pos hse] at h
        cases h
      · rw [if_neg hse] at h
        have hdfs : dfEntries sub = true := hdfv
        obtain ⟨q, hq, hpq⟩ := getAllPathsEntries_tree sub cur p hdfs h
        refine ⟨sub, q, rfl, ?_, hq, hpq⟩
        intro hnil
        subst hnil
        exact hse rfl
  | .null, cur, p, _, h => by
      replace h : p ∈ ([] : List String) := h
      cases h
  | .bool b0, cur, p, _, h => by
      replace h : p ∈ ([] : List String) := h
      cases h
  | .int n0, cur, p, _, h => by
      replace h : p ∈ ([] : List String) := h
      cases h
  | .str s0, cur, p, _, h => by
      replace h : p ∈ ([] : List String) := h
      cases h
  | .list xs0, cur, p, _, h => by
      replace h : p ∈ ([] : List String) := h
      cases h
end

theorem pySplitDotAux_nodot : ∀ (l acc : List Char), '.' ∉ l →
    pySplitDotAux l acc = [String.mk (acc.reverse ++ l)] := by
  intro l
  induction l with
  | nil =>
      intro acc _
      rw [pySplitDotAux]
      simp
  | cons c rest ih =>
      intro acc hd
      rw [pySplitDotAux]
      have hc : ¬c = '.' := by
        intro h
        apply hd
        rw [← h]
        exact List.mem_cons_self c rest
      rw [if_neg hc, ih (c :: acc) (fun h => hd (List.mem_cons_of_mem c h))]
      simp [List.reverse_cons, List.append_assoc]

theorem pySplitDot_nodot (k : String) (h : '.' ∉ k.data) : pySplitDot k = [k] := by
  rw [pySplitDot, pySplitDotAux_nodot k.data [] h]
  simp

theorem pySplitDotAux_join : ∀ (l acc rest2 : List Char), '.' ∉ l →
    pySplitDotAux (l ++ '.' :: rest2) acc =
      String.mk (acc.reverse ++ l) :: pySplitDotAux rest2 [] := by
  intro l
  induction l with
  | nil =>
      intro acc rest2 _
      rw [List.nil_append, pySplitDotAux, if_pos rfl]
      simp
  | cons c rest ih =>
      intro acc rest2 hd
      rw [List.cons_append, pySplitDotAux]
      have hc : ¬c = '.' := by
        intro h
        apply hd
        rw [← h]
        exact List.mem_cons_self c rest
      rw [if_neg hc, ih (c :: acc) rest2 (fun h => hd (List.mem_cons_of_mem c h))]
      simp [List.reverse_cons, List.append_assoc]

theorem pySplitDot_join (k rest : String) (h : '.' ∉ k.data) :
    pySplitDot (k ++ "." ++ rest) = k :: pySplitDot rest := by
  rw [pySplitDot]
  have hdata : (k ++ "." ++ rest).data = k.data ++ '.' :: rest.data := by
    simp [String.data_append]
  rw [hdata, pySplitDotAux_join k.data [] rest.data h]
  simp [pySplitDot]

theorem fallback_ok : ∀ (d : Dict) (q : String), TreePath d q →
    dfEntries d = true → valWF (Val.dict d) = true →
    ∀ (P : String) (done : List String),
    ∃ v, getNestedFallback P (Val.dict d) done (pySplitDot q) = .ok v := by
  intro d q hq
  induction hq with
  | @here d2 k v hm =>
      intro hdf hwf P done
      obtain ⟨hk1, hk2, _⟩ := mem_dfEntries d2 k v hdf hm
      rw [pySplitDot_nodot k hk2]
      have hval : (decide ((dictKeys d2).Nodup) && wfEntries d2) = true := hwf
      simp only [Bool.and_eq_true, decide_eq_true_eq] at hval
      have hget : alistGet d2 k = some v := alistGet_of_mem_nodup d2 k v hval.1 hm
      refine ⟨v, ?_⟩
      have he : getNestedFallback P (Val.dict d2) done [k] = (match alistGet d2 k with
        | some w => getNestedFallback P w (done ++ [k]) []
        | none => .error (.keyError ("Path \x27" ++ P ++ "\x27 not found: key \x27" ++
            k ++ "\x27 missing"))) := rfl
      rw [he, hget]
      rfl
  | @deeper d2 k p2 sub hm hne hp ih =>
      intro hdf hwf P done
      obtain ⟨hk1, hk2, hdfv⟩ := mem_dfEntries d2 k (Val.dict sub) hdf hm
      rw [pySplitDot_join k p2 hk2]
      have hval : (decide ((dictKeys d2).Nodup) && wfEntries d2) = true := hwf
      simp only [Bool.and_eq_true, decide_eq_true_eq] at hval
      have hget : alistGet d2 k = some (Val.dict sub) :=
        alistGet_of_mem_nodup d2 k (Val.dict sub) hval.1 hm
      have hdfsub : dfEntries sub = true := hdfv
      have hwfsub : valWF (Val.dict sub) = true :=
        mem_wfEntries d2 k (Val.dict sub) hval.2 hm
      obtain ⟨v, hv⟩ := ih hdfsub hwfsub P (done ++ [k])
      refine ⟨v, ?_⟩
      have he : getNestedFallback P (Val.dict d2) done (k :: pySplitDot p2) =
        (match alistGet d2 k with
         | some w => getNestedFallback P w (done ++ [k]) (pySplitDot p2)
         | none => .error (.keyError ("Path \x27" ++ P ++ "\x27 not found: key \x27" ++
             k ++ "\x27 missing"))) := rfl
      rw [he, hget]
      exact hv

theorem mem_getAllPaths_tree (T : Dict) (p : String) (hdf : dfEntries T = true)
    (hp : p ∈ getAllPaths T) : TreePath T p := by
  obtain ⟨q, hq, hpq⟩ := getAllPathsEntries_tree T ("") p hdf hp
  have he : p = q := hpq
  subst he
  exact hq

theorem getNested_ok (T : Dict) (p : String) (hdf : dfEntries T = true)
    (hwf : valWF (Val.dict T) = true) (hp : TreePath T p) :
    ∃ v, getNestedValue T p = .ok v := by
  rw [getNestedValue]
  by_cases hpe : p = ""
  · rw [if_pos hpe]
    exact ⟨_, rfl⟩
  · rw [if_neg hpe]
    cases hc : traversePathContextual T p with
    | some v => exact ⟨v, rfl⟩
    | none => exact fallback_ok T p hp hdf hwf p []

theorem self_all_contains (l : List String) : (l.all (fun k => l.contains k)) = true := by
  rw [List.all_eq_true]
  intro k hk
  simpa using hk

theorem structuralChangeAt_self (T : Dict) (acc : List (String × String)) (p : String)
    (v : Val) (h : getNestedValue T p = .ok v) : structuralChangeAt T T acc p = .ok acc := by
  cases v with
  | dict od =>
      rw [structuralChangeAt, h]
      simp only [exceptBind_ok]
      rw [if_neg (by simp)]
      show (if ((dictKeys od).dedup.all (fun k => (dictKeys od).dedup.contains k) &&
          (dictKeys od).dedup.all (fun k => (dictKeys od).dedup.contains k)) = true then
          (pure acc : Except PyErr (List (String × String)))
        else
          let removed := pathSort (((dictKeys od).dedup).filter
            (fun k => !((dictKeys od).dedup).contains k))
          let added := pathSort (((dictKeys od).dedup).filter
            (fun k => !((dictKeys od).dedup).contains k))
          if removed.isEmpty && added.isEmpty then pure acc
          else
            let changes :=
              (if !removed.isEmpty then ["removed keys: " ++ reprStrList removed] else []) ++
              (if !added.isEmpty then ["added keys: " ++ reprStrList added] else [])
            pure (alistInsert acc p ("Structure changed - " ++
              String.intercalate (", ") changes))) = Except.ok acc
      rw [if_pos (by rw [self_all_contains]; simp)]
      rfl
  | null =>
      rw [structuralChangeAt, h]
      rfl
  | bool b0 =>
      rw [structuralChangeAt, h]
      rfl
  | int n0 =>
      rw [structuralChangeAt, h]
      rfl
  | str s0 =>
      rw [structuralChangeAt, h]
      rfl
  | list xs0 =>
      rw [structuralChangeAt, h]
      rfl

theorem structuralChangesGo_self (T : Dict) : ∀ (l : List String) (acc : List (String × String)),
    (∀ p ∈ l, ∃ v, getNestedValue T p = .ok v) →
    structuralChangesGo T T l acc = .ok acc := by
  intro l
  induction l with
  | nil => intro acc _; rw [structuralChangesGo]
  | cons p rest ih =>
      intro acc hyp
      obtain ⟨v, hv⟩ := hyp p (List.mem_cons_self _ _)
      rw [structuralChangesGo, structuralChangeAt_self T acc p v hv]
      simp only [exceptBind_ok]
      exact ih acc (fun p2 hm => hyp p2 (List.mem_cons_of_mem _ hm))

theorem findStructuralChanges_self (T : Dict) (hdf : dfEntries T = true)
    (hwf : valWF (Val.dict T) = true) : findStructuralChanges T T = .ok [] := by
  rw [findStructuralChanges]
  apply structuralChangesGo_self
  intro p hp
  exact getNested_ok T p hdf hwf (mem_getAllPaths_tree T p hdf (List.mem_filter.mp hp).1)

theorem identifyNetworkCriticalPaths_nil (c : Dict) : identifyNetworkCriticalPaths c = [] := by
  rw [identifyNetworkCriticalPaths]
  apply List.filter_eq_nil_iff.mpr
  intro p _
  simp [isNetworkCritical, defaultPreservePaths, defaultPreservePatterns]

theorem mergeNetworkAnnotations_nil (golden tn result : Dict)
    (hann : ∀ p ∈ netGetAllConfigPaths result, containsAnnotationSub p = false) :
    mergeNetworkAnnotations golden tn result = .ok result := by
  rw [mergeNetworkAnnotations]
  have hf : (netGetAllConfigPaths result).filter containsAnnotationSub = [] :=
    List.filter_eq_nil_iff.mpr (fun p hp => by rw [hann p hp]; simp)
  rw [hf]
  rfl

theorem preserveNetworkConfig_self (T : Dict)
    (hann : ∀ p ∈ netGetAllConfigPaths T, containsAnnotationSub p = false) :
    preserveNetworkConfig T T T = .ok T := by
  rw [preserveNetworkConfig, identifyNetworkCriticalPaths_nil,
    show preserveNetworkLoop T [] T = Except.ok T from rfl]
  simp only [exceptBind_ok]
  rw [mergeNetworkAnnotations_nil T T T hann]
  simp only [exceptBind_ok]
  rfl

/-- C2 (amended): on every tree whose dicts have duplicate-free keys, whose
mapping keys are nonempty and dot-free, and none of whose paths mentions an
annotation name, `merge(T, T, T)` returns exactly `T` with an empty conflict
log. (Unrestricted idempotence fails: the network annotation pass rewrites
any path whose lowercased form contains `"annotations"`, e.g. it replaces
`{"annotations": 5}` by `{"annotations": {}}`.) -/
theorem C2_idempotent_amended (T : Dict) (hwf : valWF (Val.dict T) = true)
    (hdf : dfEntries T = true)
    (hann : ∀ p ∈ netGetAllConfigPaths T, containsAnnotationSub p = false) :
    mergeConfigurations T T T none = .ok (T, []) := by
  have hval : (decide ((dictKeys T).Nodup) && wfEntries T) = true := hwf
  simp only [Bool.and_eq_true, decide_eq_true_eq] at hval
  have hext : extractCustomData T T = [] :=
    extractEntries_self_nil T T [] ("")
      (fun kv hm => alistGet_of_mem_nodup T kv.1 kv.2 hval.1 hm) hval.2
  have hsc : findStructuralChanges T T = .ok [] := findStructuralChanges_self T hdf hwf
  have h1 : resolveConflicts ([] : Dict) T T = .ok (T, []) := by
    rw [resolveConflicts, hsc]
    rfl
  have hpres : preserveNetworkConfig T T T = .ok T := preserveNetworkConfig_self T hann
  simp only [mergeConfigurations]
  rw [hext, h1]
  show (match preserveNetworkConfig T T T with
    | Except.error e => (Except.error e : Except PyErr (Dict × List LogEntry))
    | Except.ok final2 =>
        Except.ok (final2, addNetworkPreservationLogs [] (getNetworkCriticalSummary final2)))
    = Except.ok (T, [])
  rw [hpres]
  show Except.ok (T, addNetworkPreservationLogs [] (getNetworkCriticalSummary T)) =
    Except.ok (T, ([] : List LogEntry))
  rw [getNetworkCriticalSummary_nil, addNetworkPreservationLogs_nil]

/-- C2 witness: the theorem applied to a small two-level tree. -/
theorem C2_witness :
    mergeConfigurations [("a", Val.int 1), ("b", Val.dict [("c", Val.str "x")])]
      [("a", Val.int 1), ("b", Val.dict [("c", Val.str "x")])]
      [("a", Val.int 1), ("b", Val.dict [("c", Val.str "x")])] none =
      .ok ([("a", Val.int 1), ("b", Val.dict [("c", Val.str "x")])], []) :=
  C2_idempotent_amended [("a", Val.int 1), ("b", Val.dict [("c", Val.str "x")])]
    (by decide) (by decide) (by decide)


end CfgMig
